import Mathlib

/-!
# Verification of the PrompterAid image-pipeline scripts

A shallow embedding, in Lean 4, of the core logic of `process.py` (filename
normalisation, PNG→WebP destination mapping, converter status reporting, the
interactive conflict/duplicate resolver, and the `images.json` manifest
synchroniser), together with theorems settling the frozen claims about the
spec of this pipeline.

Modelling conventions:
* Python strings are Lean `String`s; character-level work happens on `String.data`.
* Timestamps are integers (seconds); the ISO-8601 round-trip through
  `datetime.fromisoformat` is injective, so an integer faithfully stands for a
  stored `dateadded` value.  The recency cutoff `now - timedelta(days=7)` is
  `now - NEW_WINDOW`.
* The filesystem is explicit data: a list of `(folder, file names)` pairs.
  Directory-scan order is modelled as list order (the OS order is unspecified;
  no claim depends on it).
* Interactive `input()` is a list of answer strings consumed left to right;
  exhausting it models `EOFError` (the Python process would crash), recorded
  by an `aborted` flag.
* `PIL` calls are oracles (`PilRes`): each call either returns a value or
  raises, which is exactly the boundary `process.py` sees.
-/

namespace PrompterAid

/-! ## Generic helpers: a computable, kernel-reducing string sort

`update_images_json` iterates `sorted(webp_paths[model_id])`.  Built-in
`String` comparisons do not reduce in the kernel, so we sort with our own
lexicographic byte comparator.  Only determinism and permutation matter for
the claims; the exact tie-breaking of Python's `Path` ordering does not. -/

/-- Lexicographic strict order on character lists, by code point. -/
def strLtB : List Char → List Char → Bool
  | [], [] => false
  | [], _ :: _ => true
  | _ :: _, [] => false
  | x :: xs, y :: ys => decide (x.toNat < y.toNat) || (x == y && strLtB xs ys)

/-- Total "less or equal" comparator on strings (`a ≤ b` as `¬ b < a`). -/
def pleB (a b : String) : Bool := !(strLtB b.data a.data)

/-- Insert into a sorted list (insertion-sort step). -/
def insertLe {α : Type} (le : α → α → Bool) (a : α) : List α → List α
  | [] => [a]
  | b :: t => if le a b then a :: b :: t else b :: insertLe le a t

/-- Insertion sort with a boolean comparator; models Python `sorted`. -/
def sortBy {α : Type} (le : α → α → Bool) : List α → List α
  | [] => []
  | a :: t => insertLe le a (sortBy le t)

/-- `sorted(webp_paths[model_id])` from `update_images_json`. -/
def sortPaths (l : List String) : List String := sortBy pleB l

/-! ## `clean_filename` (process.py, lines 45–70)

```python
name = re.sub(r'jennajuffuffles|mermaid', '', name, flags=re.IGNORECASE)
name = re.sub(r'\s+', '', name)
name = re.sub(r'_+', '_', name)
name = re.sub(r'^_+|_+$', '', name)
parts = name.split('_', 1)
if len(parts) == 2:
    name = f"{parts[0]}_{parts[1]}"
else:
    name = parts[0]
```
-/

/-- Case-insensitive prefix match of a (lowercase ASCII) pattern against a
character list; models how `re.IGNORECASE` matches the literal alternatives. -/
def matchesCI : List Char → List Char → Bool
  | [], _ => true
  | _ :: _, [] => false
  | p :: ps, c :: cs => (c.toLower == p) && matchesCI ps cs

/-- First blocklist alternative of the regex `jennajuffuffles|mermaid`. -/
def BLOCK1 : List Char := "jennajuffuffles".data

/-- Second blocklist alternative. -/
def BLOCK2 : List Char := "mermaid".data

/-- Left-to-right, non-overlapping removal of the blocklist substrings, as
`re.sub(pattern, '', name)` performs it: at each position, if an alternative
matches, drop the matched text and continue after it; otherwise keep the
character.  The `fuel` (initially the length) only makes the recursion
structural; it never runs out. -/
def removeBlockAux : Nat → List Char → List Char
  | 0, _ => []
  | _ + 1, [] => []
  | fuel + 1, c :: cs =>
    if matchesCI BLOCK1 (c :: cs) then removeBlockAux fuel ((c :: cs).drop BLOCK1.length)
    else if matchesCI BLOCK2 (c :: cs) then removeBlockAux fuel ((c :: cs).drop BLOCK2.length)
    else c :: removeBlockAux fuel cs

/-- `re.sub(r'jennajuffuffles|mermaid', '', name, flags=re.IGNORECASE)`. -/
def removeBlock (l : List Char) : List Char := removeBlockAux l.length l

/-- Python's `\s` on the characters that can occur in these filenames
(ASCII whitespace; the exotic Unicode space characters never arise here). -/
def isPySpace (c : Char) : Bool :=
  c == ' ' || c == '\t' || c == '\n' || c == '\r' || c == '\x0b' || c == '\x0c'

/-- `re.sub(r'\s+', '', name)`: delete all whitespace. -/
def stripSpaces (l : List Char) : List Char := l.filter (fun c => !isPySpace c)

/-- `re.sub(r'_+', '_', name)`: collapse each maximal run of underscores to a
single underscore, implemented by deleting the former of every adjacent
underscore pair (left to right), which leaves exactly one per run. -/
def collapseU : List Char → List Char
  | [] => []
  | [c] => [c]
  | a :: b :: t =>
    if a == '_' && b == '_' then collapseU (b :: t) else a :: collapseU (b :: t)

/-- Remove a maximal trailing run of underscores (the `_+$` alternative). -/
def trimTrailU : List Char → List Char
  | [] => []
  | c :: cs =>
    match trimTrailU cs with
    | [] => if c == '_' then [] else [c]
    | r => c :: r

/-- `re.sub(r'^_+|_+$', '', name)`: strip leading then trailing underscores. -/
def trimU (l : List Char) : List Char := trimTrailU (l.dropWhile (fun c => c == '_'))

/-- `name.split('_', 1)`: the part before the first underscore, and—if an
underscore exists—the remainder after it. -/
def splitOnceU : List Char → List Char × Option (List Char)
  | [] => ([], none)
  | c :: cs =>
    if c == '_' then ([], some cs)
    else
      let r := splitOnceU cs
      (c :: r.1, r.2)

/-- The final step of `clean_filename`: split at the first underscore with
`split('_', 1)` and glue the two parts back with an underscore (or keep the
single part).  This reconstructs the input exactly. -/
def finalizeName (l : List Char) : List Char :=
  match splitOnceU l with
  | (a, some b) => a ++ '_' :: b
  | (a, none) => a

/-- `clean_filename` from process.py. -/
def clean_filename (s : String) : String :=
  ⟨finalizeName (trimU (collapseU (stripSpaces (removeBlock s.data))))⟩

/-! ## Data model: the `images.json` manifest

`{"sets": {model_id: {"name": ..., "images": [{"path", "dateadded", "new"}]}},
  "default": "niji6"}` -/

/-- `MODEL_FOLDERS = {"niji6": "niji-6", "mj7": "midjourney-7"}` (insertion
order preserved, as Python dicts do). -/
def MODEL_FOLDERS : List (String × String) := [("niji6", "niji-6"), ("mj7", "midjourney-7")]

/-- The category (model) ids, in iteration order. -/
def modelIds : List String := MODEL_FOLDERS.map (fun mf => mf.1)

/-- `NEW_WINDOW_DAYS = 7`, expressed in seconds (`timedelta(days=7)`). -/
def NEW_WINDOW : Int := 7 * 86400

/-- One record of a category's `images` list.  `new = none` models an absent
`"new"` key; `new = some b` models the key being present with value `b`. -/
structure ImageEntry where
  path : String
  dateadded : Int
  new : Option Bool
deriving DecidableEq, Repr

/-- One category section: display name plus ordered entry list. -/
structure CategoryData where
  name : String
  images : List ImageEntry
deriving DecidableEq, Repr

/-- The persisted manifest document. -/
structure Manifest where
  sets : List (String × CategoryData)
  defaultSet : String
deriving DecidableEq, Repr

/-- `old_json.get("sets", {}).get(model_id, {})`. -/
def getCat (m : Manifest) (model : String) : Option CategoryData :=
  (m.sets.find? (fun p => p.1 == model)).map (fun p => p.2)

/-- `old_json.get("sets", {}).get(model_id, {}).get("images", [])`. -/
def getImages (m : Manifest) (model : String) : List ImageEntry :=
  match getCat m model with
  | some cd => cd.images
  | none => []

/-- All entries reachable by the `old_lookup` loop: for each model id in
`MODEL_FOLDERS` order, that model's images in list order. -/
def allEntries (m : Manifest) : List ImageEntry :=
  (MODEL_FOLDERS.map (fun mf => getImages m mf.1)).flatten

/-- `old_lookup.get(rel_path)`: the dict assigns `old_lookup[img["path"]] = img`
in iteration order, so a later entry with the same path overwrites an earlier
one — the lookup returns the last matching entry. -/
def oldLookup (m : Manifest) (p : String) : Option ImageEntry :=
  ((allEntries m).filter (fun e => e.path == p)).getLast?

/-- The `dateadded` value assigned to path `p`: reused from the old entry when
one exists, otherwise the current time (`now.isoformat()`). -/
def dateFor (oldJson : Manifest) (now : Int) (p : String) : Int :=
  match oldLookup oldJson p with
  | some e => e.dateadded
  | none => now

/-- The manifest entry `update_images_json` writes for path `p`: the reused or
fresh timestamp, and a `"new"` key that is always present — `True` when
`dateadded > cutoff`, `False` otherwise. -/
def mkEntry (oldJson : Manifest) (now : Int) (p : String) : ImageEntry :=
  let d := dateFor oldJson now p
  { path := p, dateadded := d, new := some (decide (now - NEW_WINDOW < d)) }

/-- The carried-over display name:
`old_json.get("sets", {}).get(model_id, {}).get("name", model_id)`. -/
def catName (oldJson : Manifest) (model : String) : String :=
  match getCat oldJson model with
  | some cd => cd.name
  | none => model

/-- The change summary returned by `update_images_json`. -/
structure UpdateChanges where
  added : List String
  removed : List String
  updated : List String
  newCount : List (String × Nat)
deriving DecidableEq, Repr

/-- `update_images_json` (process.py, lines 404–468).  Input: the per-model
collected output paths (already as `img/...`-relative strings) and the old
manifest; output: the new manifest and the change summary.  Per model, the
sorted path list is mapped to entries (timestamps reused through the global
`old_lookup`); `added`/`updated` record, in the same iteration order, the
fresh paths and the paths whose entry aged out of the window while the old
entry carried a `"new"` key; `removed` is the set difference
`old_paths - new_paths` (Python iterates a set in arbitrary order; we list
each removed path once, in first-occurrence order). -/
def update_images_json (webpPaths : String → List String) (oldJson : Manifest) (now : Int) :
    Manifest × UpdateChanges :=
  let cutoff := now - NEW_WINDOW
  let sets := MODEL_FOLDERS.map (fun mf =>
    (mf.1, { name := catName oldJson mf.1,
             images := (sortPaths (webpPaths mf.1)).map (mkEntry oldJson now) : CategoryData }))
  let added := (MODEL_FOLDERS.map (fun mf =>
    (sortPaths (webpPaths mf.1)).filter (fun p => (oldLookup oldJson p).isNone))).flatten
  let updated := (MODEL_FOLDERS.map (fun mf =>
    (sortPaths (webpPaths mf.1)).filter (fun p =>
      match oldLookup oldJson p with
      | some e => decide (e.dateadded ≤ cutoff) && e.new.isSome
      | none => false))).flatten
  let removed := (MODEL_FOLDERS.map (fun mf =>
    (((getImages oldJson mf.1).map (fun e => e.path)).filter
      (fun p => !((webpPaths mf.1).contains p))).dedup)).flatten
  let newCount := MODEL_FOLDERS.map (fun mf =>
    (mf.1, ((sortPaths (webpPaths mf.1)).filter
      (fun p => decide (cutoff < dateFor oldJson now p))).length))
  ({ sets := sets, defaultSet := "niji6" },
   { added := added, removed := removed, updated := updated, newCount := newCount })

/-! ## `convert_png_to_webp` (process.py, lines 236–259)

Every `PIL` call inside the `try` block either returns a value or raises; the
oracles below supply those outcomes, and the embedding shows how the function
turns them into its returned status string. -/

/-- Outcome of a library call: a value, or a raised exception's message. -/
inductive PilRes (α : Type) where
  | ok (a : α)
  | exn (msg : String)
deriving DecidableEq, Repr

/-- The slice of a `PIL` image object the function inspects. -/
structure PilImg where
  mode : String
deriving DecidableEq, Repr

/-- `convert_png_to_webp`: open the image; if its mode is `RGBA`, `LA` or `P`,
flatten to `RGB`; save as WebP.  Any exception from any of the three calls is
caught and reported; the return value is always a status string. -/
def convert_png_to_webp (pngName webpName : String)
    (openRes : PilRes PilImg) (convRes : PilImg → PilRes PilImg)
    (saveRes : PilImg → PilRes Unit) : String :=
  match openRes with
  | .exn e => "ERROR converting " ++ pngName ++ ": " ++ e
  | .ok img =>
    let conv : PilRes PilImg :=
      if img.mode = "RGBA" ∨ img.mode = "LA" ∨ img.mode = "P" then convRes img else .ok img
    match conv with
    | .exn e => "ERROR converting " ++ pngName ++ ": " ++ e
    | .ok img2 =>
      match saveRes img2 with
      | .ok _ => "Converted: " ++ pngName ++ " -> " ++ webpName
      | .exn e => "ERROR converting " ++ pngName ++ ": " ++ e

/-- Success of the conversion: `Image.open` returned an image, the optional
mode-flattening step returned, and `img.save` returned — i.e. no call inside
the `try` block raised. -/
def pilSuccess (openRes : PilRes PilImg) (convRes : PilImg → PilRes PilImg)
    (saveRes : PilImg → PilRes Unit) : Prop :=
  ∃ img img2, openRes = PilRes.ok img ∧
    (if img.mode = "RGBA" ∨ img.mode = "LA" ∨ img.mode = "P" then convRes img
      else PilRes.ok img) = PilRes.ok img2 ∧
    ∃ u, saveRes img2 = PilRes.ok u

/-! ## `get_png_to_webp_mapping` (process.py, lines 289–315) -/

/-- A source file: the directory part of its path, and its file name. -/
structure PngFile where
  dir : String
  name : String
deriving DecidableEq, Repr

/-- `str(png_path)`. -/
def pathStr (p : PngFile) : String := p.dir ++ "/" ++ p.name

/-- Substring test (`folder in str(png_path)`). -/
def isSubstr (needle : List Char) : List Char → Bool
  | [] => needle.isEmpty
  | c :: t => needle.isPrefixOf (c :: t) || isSubstr needle t

/-- `png_path.with_suffix('.webp').name` for names ending in `.png` with a
nonempty stem (the only inputs, coming from `glob("*.png")`). -/
def webpName (pngName : String) : String :=
  ⟨pngName.data.take (pngName.data.length - 4) ++ ".webp".data⟩

/-- The subfolder character the code picks:
`webp_name[0] if webp_name and webp_name[0].isdigit() else '0'` — the FIRST
CHARACTER when it is a digit, `'0'` otherwise. -/
def firstCharDigitElseZero (s : String) : Char :=
  match s.data with
  | [] => '0'
  | c :: _ => if c.isDigit then c else '0'

/-- Modelled from the spec: "numeric subfolders keyed by the first digit of
the filename" — the first digit occurring anywhere in the name (this is also
what `convert_single_png` in `!process.py` computes with
`next((char for char in clean_filename if char.isdigit()), None)`). -/
def first_digit_scan (s : String) : Option Char := s.data.find? Char.isDigit

/-- A computed WebP destination `IMG_ROOT / model_folder / subfolder / name`. -/
structure WebpDest where
  modelFolder : String
  subfolder : Char
  fileName : String
deriving DecidableEq, Repr

/-- The destination path relative to the project root, with `/` separators —
exactly the string `update_images_json` stores as `img["path"]`. -/
def WebpDest.relPath (d : WebpDest) : String :=
  "img/" ++ d.modelFolder ++ "/" ++ String.singleton d.subfolder ++ "/" ++ d.fileName

/-- `get_png_to_webp_mapping`: the `.webp` name, the subfolder from the first
character, and the model folder found by substring search over the path (in
`MODEL_FOLDERS` order).  `none` models the `ValueError` when no folder
matches. -/
def get_png_to_webp_mapping (p : PngFile) : Option WebpDest :=
  let wn := webpName p.name
  let fd := firstCharDigitElseZero wn
  match MODEL_FOLDERS.find? (fun mf => isSubstr mf.2.data (pathStr p).data) with
  | some mf => some { modelFolder := mf.2, subfolder := fd, fileName := wn }
  | none => none

/-! ## Path collection in `process_images_concurrently` (process.py, 317–402)

For the manifest claims only the multiset of collected output paths matters,
not the thread pool: for every source PNG the computed WebP path is appended
to `webp_paths[model_id]` exactly once — whether it was already tracked,
already on disk, or freshly converted — and afterwards every orphaned WebP
(on disk but untracked in `images.json`) is appended again by
`webp_paths[model_id].extend(orphaned_files[model_id])`. -/

/-- `find_orphaned_webp_files` for one model: WebP files on disk whose
relative path is not tracked in `images.json`. -/
def find_orphaned_webp_files (diskWebps trackedPaths : List String) : List String :=
  diskWebps.filter (fun w => !(trackedPaths.contains w))

/-- What one model's `webp_paths[model_id]` contains at the end of
`process_images_concurrently`: one path per source PNG (files whose mapping
raises are skipped by the `except ... continue`), followed by the orphaned
files.  `diskWebps` are the WebP relative paths present on disk under the
model's output folder; `trackedPaths` those recorded in the old manifest. -/
def process_model_paths (folder : String) (pngs diskWebps trackedPaths : List String) :
    List String :=
  let srcDir := "source-images/" ++ folder
  let converted := pngs.filterMap (fun n =>
    (get_png_to_webp_mapping { dir := srcDir, name := n }).map WebpDest.relPath)
  converted ++ find_orphaned_webp_files diskWebps trackedPaths

/-- The on-disk inputs of a run of `process_images_concurrently`. -/
structure SourceState where
  pngs : String → List String
  diskWebps : String → List String
  trackedPaths : String → List String

/-- The full `webp_paths` dictionary produced by the run. -/
def process_images_concurrently (src : SourceState) : String → List String := fun modelId =>
  match MODEL_FOLDERS.find? (fun mf => mf.1 == modelId) with
  | some mf => process_model_paths mf.2 (src.pngs mf.2) (src.diskWebps mf.2)
      (src.trackedPaths modelId)
  | none => []

/-! ## The interactive Resolver: `rename_and_check_duplicates` (process.py, 94–234)

The console is a list of answer strings consumed left to right; `input()` on
an exhausted list models `EOFError` (which would propagate and kill the run),
recorded in `aborted`.  `get_image_size` is an oracle from folder and file
name to optional dimensions.  `os.startfile` (image preview) has no effect on
control flow and is not modelled.  We additionally instrument the run with
the list of 1/2/s prompts issued (one event per contending pair encountered;
invalid-input re-asks stay inside the same event) and a count of `unlink`
calls, so that the claims about re-prompting and restarting are statable. -/

/-- The per-folder file listings: `(folder name, file names in scan order)`.
A folder absent from the list models `folder_path.exists()` being false. -/
abbrev FS := List (String × List String)

/-- Configuration: the `get_image_size` oracle. -/
structure ResolverCfg where
  sizes : String → String → Option (Nat × Nat)

/-- The files currently in a folder, `none` if the folder does not exist. -/
def fsFiles (fs : FS) (folder : String) : Option (List String) :=
  (fs.find? (fun p => p.1 == folder)).map (fun p => p.2)

/-- `path.unlink()`: remove a file from its folder. -/
def fsDelete (fs : FS) (folder name : String) : FS :=
  fs.map (fun p => if p.1 == folder then (p.1, p.2.erase name) else p)

/-- `png.rename(new_path)` within its folder. -/
def fsRename (fs : FS) (folder oldName newName : String) : FS :=
  fs.map (fun p =>
    if p.1 == folder then (p.1, p.2.map (fun n => if n == oldName then newName else n)) else p)

/-- A 1/2/s prompt event, identifying the contending pair. -/
inductive PromptEv where
  | conflict (orig target : String)
  | dup (a b : String)
deriving DecidableEq, Repr

/-- The interpreter state of one invocation of the Resolver. -/
structure RState where
  fs : FS
  answers : List String
  prompts : List PromptEv
  report : List String
  deletions : Nat
  conflictsResolved : Bool
  currentConflicts : Bool
  aborted : Bool
deriving Repr

/-- `input()`: consume one answer, or abort on exhausted input. -/
def readAns (st : RState) : String × RState :=
  match st.answers with
  | [] => ("", { st with aborted := true })
  | a :: rest => (a, { st with answers := rest })

/-- The size-comparison preamble of both prompt sites: when both sizes are
known and differ, nothing is read; otherwise a `Show images? (y/n)` answer is
consumed (its value only controls the preview, which has no modelled effect). -/
def maybeAskShow (cfg : ResolverCfg) (folder a b : String) (st : RState) : RState :=
  match cfg.sizes folder a, cfg.sizes folder b with
  | some s1, some s2 => if s1 ≠ s2 then st else (readAns st).2
  | _, _ => (readAns st).2

/-- A validated 1/2/s decision. -/
inductive Choice where
  | one
  | two
  | skip
deriving DecidableEq, Repr

/-- The `while True` re-prompt loop around `input(... [1/2/s])`: consume
answers until a valid one appears; `none` when input runs out first. -/
def promptLoop : List String → Option (Choice × List String)
  | [] => none
  | a :: rest =>
    if a = "1" then some (.one, rest)
    else if a = "2" then some (.two, rest)
    else if a = "s" then some (.skip, rest)
    else promptLoop rest

/-- The rename-conflict interaction (process.py, 121–167) for file `n` whose
cleaned name `m` already exists in `folder`. -/
def handleConflict (cfg : ResolverCfg) (folder n m : String) (st : RState) : RState :=
  if st.aborted then st else
  let st := maybeAskShow cfg folder n m st
  if st.aborted then st else
  let st := { st with prompts := st.prompts ++ [PromptEv.conflict n m] }
  match promptLoop st.answers with
  | none => { st with answers := [], aborted := true }
  | some (c, rest) =>
    let st := { st with answers := rest }
    match c with
    | .one =>
      { st with fs := fsDelete st.fs folder n, deletions := st.deletions + 1,
                conflictsResolved := true, currentConflicts := true }
    | .two =>
      { st with fs := fsRename (fsDelete st.fs folder m) folder n m,
                deletions := st.deletions + 1,
                report := st.report ++ ["Renamed: " ++ n ++ " -> " ++ m ++ " (existing deleted)"],
                conflictsResolved := true, currentConflicts := true }
    | .skip => { st with currentConflicts := true }

/-- The duplicate interaction (process.py, 178–224) for a prefix-colliding
pair `(a, b)`. -/
def handleDup (cfg : ResolverCfg) (folder : String) (st : RState) (pair : String × String) :
    RState :=
  if st.aborted then st else
  let st := maybeAskShow cfg folder pair.1 pair.2 st
  if st.aborted then st else
  let st := { st with prompts := st.prompts ++ [PromptEv.dup pair.1 pair.2] }
  match promptLoop st.answers with
  | none => { st with answers := [], aborted := true }
  | some (c, rest) =>
    let st := { st with answers := rest }
    match c with
    | .one =>
      { st with fs := fsDelete st.fs folder pair.1, deletions := st.deletions + 1,
                conflictsResolved := true, currentConflicts := true }
    | .two =>
      { st with fs := fsDelete st.fs folder pair.2, deletions := st.deletions + 1,
                conflictsResolved := true, currentConflicts := true }
    | .skip => { st with currentConflicts := true }

/-- The per-folder scan accumulator: interpreter state plus the `seen`
prefix table and the collected `dups` pairs. -/
structure FolderScan where
  st : RState
  seen : List (String × String)
  dups : List (String × String)

/-- `seen[prefix]` lookup; the dict only ever gains a key when it is absent,
so an association list with first-match lookup is exact. -/
def seenLookup (seen : List (String × String)) (k : String) : Option String :=
  (seen.find? (fun p => p.1 == k)).map (fun p => p.2)

/-- The prefix bookkeeping after each file (process.py, 173–177): group by
the first ten characters of the cleaned name; a repeated prefix records a
duplicate pair `(seen[prefix], new_path)` — and `new_path`'s file name is the
cleaned name `m` in every branch. -/
def addPrefixStep (fsc : FolderScan) (m : String) : FolderScan :=
  let k := m.take 10
  match seenLookup fsc.seen k with
  | some prev => { fsc with dups := fsc.dups ++ [(prev, m)] }
  | none => { fsc with seen := fsc.seen ++ [(k, m)] }

/-- Processing of one globbed PNG (process.py, 117–177): clean the name; a
changed name whose target exists is a conflict; a changed name with a free
target is renamed silently; an unchanged name passes through.  Then the
prefix bookkeeping runs (skipped only when the interaction aborted, since a
raised `EOFError` would unwind past it). -/
def processPng (cfg : ResolverCfg) (folder : String) (fsc : FolderScan) (n : String) :
    FolderScan :=
  if fsc.st.aborted then fsc else
  let m := clean_filename n
  let files := (fsFiles fsc.st.fs folder).getD []
  if n = m then addPrefixStep fsc m
  else if files.contains m then
    let st := handleConflict cfg folder n m fsc.st
    if st.aborted then { fsc with st := st }
    else addPrefixStep { fsc with st := st } m
  else
    let st := { fsc.st with fs := fsRename fsc.st.fs folder n m,
                            report := fsc.st.report ++ ["Renamed: " ++ n ++ " -> " ++ m] }
    addPrefixStep { fsc with st := st } m

/-- One folder's scan (process.py, 111–224): glob the `.png` files (a
snapshot, in scan order), process each, then run the duplicate prompts. -/
def processFolder (cfg : ResolverCfg) (st : RState) (folder : String) : RState :=
  if st.aborted then st else
  match fsFiles st.fs folder with
  | none => st
  | some files0 =>
    let pngs := files0.filter (fun n => ".png".data.isSuffixOf n.data)
    let fsc := pngs.foldl (processPng cfg folder) { st := st, seen := [], dups := [] }
    fsc.dups.foldl (handleDup cfg folder) fsc.st

/-- One pass of the `while True` loop body: reset `current_conflicts`, then
scan every model folder. -/
def scanPass (cfg : ResolverCfg) (st : RState) : RState :=
  (MODEL_FOLDERS.map (fun mf => mf.2)).foldl (processFolder cfg)
    { st with currentConflicts := false }

/-- The outer loop: repeat passes until one reports no conflicts.  The `fuel`
bounds the number of passes we interpret; the Boolean result is `true` when
the loop exited normally within the fuel (and without aborting) — `false`
models divergence or a crash. -/
def runPasses (cfg : ResolverCfg) : Nat → RState → RState × Bool
  | 0, st => (st, false)
  | fuel + 1, st =>
    let st' := scanPass cfg st
    if st'.aborted then (st', false)
    else if st'.currentConflicts then runPasses cfg fuel st'
    else (st', true)

/-- The result of a full Resolver invocation.  `restarted` models the
orchestrator's `if conflicts_resolved: restart_script()` (lines 232–233 and
72–76): the process image is replaced exactly when the loop finished normally
with the flag set. -/
structure RunResult where
  st : RState
  finished : Bool
  restarted : Bool
deriving Repr

/-- `rename_and_check_duplicates`, run on a filesystem `fs` with a scripted
console `answers`, interpreting at most `fuel` passes. -/
def rename_and_check_duplicates (cfg : ResolverCfg) (fuel : Nat) (fs : FS)
    (answers : List String) : RunResult :=
  let st0 : RState :=
    { fs := fs, answers := answers, prompts := [], report := [], deletions := 0,
      conflictsResolved := false, currentConflicts := false, aborted := false }
  let r := runPasses cfg fuel st0
  { st := r.1, finished := r.2, restarted := r.2 && r.1.conflictsResolved }

/-! ## The prompts a pass issues when nothing changes on disk

When every decision is a skip and no silent rename applies, a pass never
touches the filesystem, so the contending pairs it prompts for are a pure
function of the file listings.  `foldersPrompts` computes that function; the
amended claim C6 below proves the interpreter realises it, pass after pass. -/

/-- Accumulator of the answer-free scan: prompt events plus the same `seen`
and `dups` tables the interpreter maintains. -/
structure PureScan where
  evs : List PromptEv
  seen : List (String × String)
  dups : List (String × String)
deriving DecidableEq, Repr

/-- The answer-free image of `processPng` for one file, assuming the folder
listing stays `files0`. -/
def pureStep (files0 : List String) (acc : PureScan) (n : String) : PureScan :=
  let m := clean_filename n
  let acc' :=
    if n = m then acc
    else if files0.contains m then { acc with evs := acc.evs ++ [PromptEv.conflict n m] }
    else acc
  match seenLookup acc'.seen (m.take 10) with
  | some prev => { acc' with dups := acc'.dups ++ [(prev, m)] }
  | none => { acc' with seen := acc'.seen ++ [(m.take 10, m)] }

/-- The answer-free image of one folder's scan. -/
def pureFolderScan (files0 : List String) : PureScan :=
  (files0.filter (fun n => ".png".data.isSuffixOf n.data)).foldl (pureStep files0)
    { evs := [], seen := [], dups := [] }

/-- The prompts one unchanged folder produces: conflicts in file order, then
the duplicate pairs. -/
def folderPrompts (fs : FS) (folder : String) : List PromptEv :=
  match fsFiles fs folder with
  | none => []
  | some files0 =>
    let p := pureFolderScan files0
    p.evs ++ p.dups.map (fun pr => PromptEv.dup pr.1 pr.2)

/-- The prompts one full unchanged pass produces, over all model folders. -/
def foldersPrompts (fs : FS) : List PromptEv :=
  ((MODEL_FOLDERS.map (fun mf => mf.2)).map (folderPrompts fs)).flatten

/-- "No silent rename applies": every `.png` file whose cleaned name differs
already has the cleaned name present in its folder, so a scan only ever
prompts (it never renames). -/
def cleanStableB (fs : FS) : Bool :=
  fs.all (fun pr => pr.2.all (fun n =>
    !(".png".data.isSuffixOf n.data) || (clean_filename n == n) ||
      pr.2.contains (clean_filename n)))

/-! ## Invariant vocabulary for the Resolver proofs -/

/-- Relates two interpreter states along execution: the deletion count only
grows, and `conflicts_resolved` is set afterwards exactly when it already was
or a deletion happened in between — the four `unlink` sites are the only
places the flag is set, and each increments the count. -/
def StepInv (a b : RState) : Prop :=
  a.deletions ≤ b.deletions ∧
    b.conflictsResolved = (a.conflictsResolved || decide (a.deletions < b.deletions))

/-- Every remaining console answer is the single letter `s`. -/
def AllS (st : RState) : Bool := st.answers.all (fun a => a == "s")

/-- State `b` is state `a` after interpreting scan work that only prompted
and skipped: the filesystem, report, deletion count and restart flag are
untouched; exactly the events `evs` were appended to the prompt log; the
pass-conflict flag accumulates whether any prompt was issued; no abort; and
the unconsumed console is still all-`s`. -/
def SkipGood (a b : RState) (evs : List PromptEv) : Prop :=
  b.fs = a.fs ∧ b.report = a.report ∧ b.deletions = a.deletions ∧
    b.conflictsResolved = a.conflictsResolved ∧
    b.prompts = a.prompts ++ evs ∧
    b.currentConflicts = (a.currentConflicts || !evs.isEmpty) ∧
    b.aborted = false ∧ AllS b = true

/-! ## Shape predicates for the normalisation proof -/

/-- No two adjacent underscores anywhere in the list. -/
def noDoubleU : List Char → Bool
  | [] => true
  | [_] => true
  | a :: b :: t => !(a == '_' && b == '_') && noDoubleU (b :: t)

/-- The first character, if any, is not an underscore. -/
def headNotU : List Char → Bool
  | [] => true
  | c :: _ => !(c == '_')

/-- The last character, if any, is not an underscore. -/
def lastNotU : List Char → Bool
  | [] => true
  | [c] => !(c == '_')
  | _ :: b :: t => lastNotU (b :: t)

/-- No whitespace character anywhere in the list. -/
def noSpaceB (l : List Char) : Bool := l.all (fun c => !isPySpace c)

/-! ## Concrete scenarios referenced by the claim theorems -/

/-- A size oracle that can read no image (`get_image_size` returns `None`). -/
def cfgNone : ResolverCfg := { sizes := fun _ _ => none }

/-- Two files that normalise to the same name: a rename conflict. -/
def fsSkips : FS := [("niji-6", ["1_a .png", "1_a.png"]), ("midjourney-7", [])]

/-- A console that always answers `s` (to `y/n` questions that reads as "no"). -/
def ansSkips : List String := ["s", "s", "s", "s", "s", "s", "s", "s"]

/-- A single file needing only a silent rename: no conflict, no duplicate. -/
def fsRenameOnly : FS := [("niji-6", ["1_a .png"]), ("midjourney-7", [])]

/-- An empty previous manifest (`images.json` absent: `{"sets": {}}`). -/
def manifestEmpty : Manifest := { sets := [], defaultSet := "niji6" }

/-- A source state with one PNG whose WebP output already exists on disk but
is untracked in the manifest — the double-append scenario of claim C1. -/
def srcUntracked : SourceState :=
  { pngs := fun f => if f == "niji-6" then ["1_a.png"] else []
    diskWebps := fun f => if f == "niji-6" then ["img/niji-6/1/1_a.webp"] else []
    trackedPaths := fun _ => [] }

/-- One already-converted output path for the idempotence witness. -/
def wpOne : String → List String :=
  fun m => if m == "niji6" then ["img/niji-6/1/1.webp"] else []

/-- A manifest holding a single entry dated at time 0 that carries a `"new"`
key — the aged-out entry of the C5 counterexample.  (Fields of the nested
structures, positionally: category name, images; path, dateadded, new.) -/
def manifestOld : Manifest :=
  ⟨[("niji6", ⟨"niji-6", [⟨"img/niji-6/1/1.webp", 0, some true⟩]⟩)], "niji6"⟩

/-- A previous manifest containing paths {A, B, C} for the removed-entry
witness of claim C10. -/
def manifestABC : Manifest :=
  ⟨[("niji6", ⟨"niji-6",
    [⟨"img/niji-6/1/a.webp", 0, none⟩, ⟨"img/niji-6/1/b.webp", 0, none⟩,
     ⟨"img/niji-6/1/c.webp", 0, none⟩]⟩)], "niji6"⟩

/-- The current output set {A, C} for the removed-entry witness. -/
def wpAC : String → List String :=
  fun m => if m == "niji6" then ["img/niji-6/1/a.webp", "img/niji-6/1/c.webp"] else []

/-- A PNG whose name starts with a letter but contains a digit — the
mapping's subfolder disagrees with "first digit occurring" on it. -/
def pngLetterFirst : PngFile := { dir := "source-images/niji-6", name := "a1.png" }

/-! # Theorems

First the reusable lemmas about the embedded operations, then one theorem per
claim (with its witness or counterexample where required). -/

/-! ## The sort is a permutation -/

theorem insertLe_perm {α : Type} (le : α → α → Bool) (a : α) (l : List α) :
    List.Perm (insertLe le a l) (a :: l) := by
  induction l with
  | nil => simp [insertLe]
  | cons b t ih =>
    simp only [insertLe]
    by_cases h : le a b = true
    · simp [h]
    · simp only [h, if_false]
      exact (ih.cons b).trans (List.Perm.swap a b t)

theorem sortBy_perm {α : Type} (le : α → α → Bool) (l : List α) :
    List.Perm (sortBy le l) l := by
  induction l with
  | nil => exact List.Perm.refl _
  | cons a t ih => exact (insertLe_perm le a (sortBy le t)).trans (ih.cons a)

theorem mem_sortPaths {a : String} {l : List String} : a ∈ sortPaths l ↔ a ∈ l :=
  (sortBy_perm pleB l).mem_iff

/-! ## Structure of `clean_filename`'s output -/

theorem finalizeName_id : ∀ l : List Char, finalizeName l = l
  | [] => rfl
  | c :: cs => by
    have ih := finalizeName_id cs
    by_cases h : c = '_'
    · simp [finalizeName, splitOnceU, h]
    · simp only [finalizeName, splitOnceU, beq_iff_eq, h, if_false] at ih ⊢
      cases hs : splitOnceU cs with
      | mk a b =>
        rw [hs] at ih
        cases b with
        | none => simpa using ih
        | some bb => simpa using ih

theorem noDoubleU_tail : ∀ {a : Char} {l : List Char},
    noDoubleU (a :: l) = true → noDoubleU l = true
  | _, [], _ => rfl
  | _, _ :: _, h => by
    simp only [noDoubleU, Bool.and_eq_true] at h
    exact h.2

theorem collapseU_headEq : ∀ l : List Char, (collapseU l).head? = l.head?
  | [] => rfl
  | [c] => rfl
  | a :: b :: t => by
    have ih := collapseU_headEq (b :: t)
    simp only [collapseU]
    by_cases hab : (a == '_' && b == '_') = true
    · rw [if_pos hab, ih]
      simp only [Bool.and_eq_true, beq_iff_eq] at hab
      simp [hab.1, hab.2]
    · rw [if_neg hab]
      simp

theorem collapseU_noDouble : ∀ l : List Char, noDoubleU (collapseU l) = true
  | [] => rfl
  | [_] => rfl
  | a :: b :: t => by
    have ih := collapseU_noDouble (b :: t)
    simp only [collapseU]
    by_cases hab : (a == '_' && b == '_') = true
    · rw [if_pos hab]
      exact ih
    · rw [if_neg hab]
      cases hc : collapseU (b :: t) with
      | nil => rfl
      | cons x xs =>
        have hx : x = b := by
          have hh := collapseU_headEq (b :: t)
          rw [hc] at hh
          simpa using hh
        rw [hx] at hc
        rw [hx]
        have hrest : noDoubleU (b :: xs) = true := by
          rw [← hc]
          exact ih
        have hab' : (a == '_' && b == '_') = false := Bool.eq_false_iff.mpr hab
        simp [noDoubleU, hab', hrest]

theorem collapseU_fix : ∀ l : List Char, noDoubleU l = true → collapseU l = l
  | [], _ => rfl
  | [_], _ => rfl
  | a :: b :: t, h => by
    simp only [noDoubleU, Bool.and_eq_true] at h
    have ih := collapseU_fix (b :: t) h.2
    have hab : ¬((a == '_' && b == '_') = true) := by
      intro hx
      rw [hx] at h
      exact absurd h.1 (by decide)
    simp only [collapseU]
    rw [if_neg hab, ih]

theorem mem_collapseU : ∀ {l : List Char} {c : Char}, c ∈ collapseU l → c ∈ l
  | [], _, h => h
  | [_], _, h => h
  | a :: b :: t, c, h => by
    simp only [collapseU] at h
    by_cases hab : (a == '_' && b == '_') = true
    · rw [if_pos hab] at h
      exact List.mem_cons_of_mem a (mem_collapseU h)
    · rw [if_neg hab] at h
      simp only [List.mem_cons] at h
      rcases h with h | h
      · exact h ▸ List.mem_cons_self a _
      · exact List.mem_cons_of_mem a (mem_collapseU h)

theorem headNotU_dropWhile (l : List Char) :
    headNotU (l.dropWhile (fun c => c == '_')) = true := by
  induction l with
  | nil => rfl
  | cons a t ih =>
    rw [List.dropWhile_cons]
    by_cases ha : (a == '_') = true
    · rw [if_pos ha]
      exact ih
    · rw [if_neg ha]
      simp [headNotU, Bool.eq_false_iff.mpr ha]

theorem noDoubleU_dropWhile {l : List Char} (h : noDoubleU l = true) :
    noDoubleU (l.dropWhile (fun c => c == '_')) = true := by
  induction l with
  | nil => exact h
  | cons a t ih =>
    rw [List.dropWhile_cons]
    by_cases ha : (a == '_') = true
    · rw [if_pos ha]
      exact ih (noDoubleU_tail h)
    · rw [if_neg ha]
      exact h

theorem trimTrail_append : ∀ l : List Char, ∃ t, trimTrailU l ++ t = l
  | [] => ⟨[], rfl⟩
  | c :: cs => by
    obtain ⟨t, ht⟩ := trimTrail_append cs
    simp only [trimTrailU]
    cases hr : trimTrailU cs with
    | nil =>
      by_cases hc : (c == '_') = true
      · rw [if_pos hc]
        exact ⟨c :: cs, by simp⟩
      · rw [if_neg hc]
        exact ⟨cs, by simp⟩
    | cons x xs =>
      refine ⟨t, ?_⟩
      rw [hr] at ht
      simpa using ht

theorem noDoubleU_append_left : ∀ (l t : List Char),
    noDoubleU (l ++ t) = true → noDoubleU l = true
  | [], _, _ => rfl
  | [_], _, _ => rfl
  | a :: b :: l', t, h => by
    simp only [List.cons_append, noDoubleU, Bool.and_eq_true] at h ⊢
    exact ⟨h.1, noDoubleU_append_left (b :: l') t h.2⟩

theorem noDoubleU_trimTrail {l : List Char} (h : noDoubleU l = true) :
    noDoubleU (trimTrailU l) = true := by
  obtain ⟨t, ht⟩ := trimTrail_append l
  exact noDoubleU_append_left _ t (by rw [ht]; exact h)

theorem mem_trimTrail {l : List Char} {c : Char} (h : c ∈ trimTrailU l) : c ∈ l := by
  obtain ⟨t, ht⟩ := trimTrail_append l
  rw [← ht]
  exact List.mem_append_left t h

theorem headNotU_trimTrail {l : List Char} (h : headNotU l = true) :
    headNotU (trimTrailU l) = true := by
  cases l with
  | nil => rfl
  | cons c cs =>
    simp only [trimTrailU]
    cases trimTrailU cs with
    | nil =>
      by_cases hc : (c == '_') = true
      · rw [if_pos hc]
        rfl
      · rw [if_neg hc]
        exact h
    | cons x xs => exact h

theorem lastNotU_trimTrail : ∀ l : List Char, lastNotU (trimTrailU l) = true
  | [] => rfl
  | c :: cs => by
    have ih := lastNotU_trimTrail cs
    simp only [trimTrailU]
    cases hr : trimTrailU cs with
    | nil =>
      by_cases hc : (c == '_') = true
      · rw [if_pos hc]
        rfl
      · rw [if_neg hc]
        simp [lastNotU, Bool.eq_false_iff.mpr hc]
    | cons x xs =>
      rw [hr] at ih
      simpa [lastNotU] using ih

theorem trimTrail_fix : ∀ {l : List Char}, lastNotU l = true → trimTrailU l = l
  | [], _ => rfl
  | [c], h => by
    simp only [lastNotU, Bool.not_eq_true'] at h
    have hc : ¬((c == '_') = true) := by
      rw [h]
      exact Bool.false_ne_true
    simp only [trimTrailU]
    rw [if_neg hc]
  | a :: b :: t, h => by
    have ih := trimTrail_fix (show lastNotU (b :: t) = true by simpa [lastNotU] using h)
    rw [trimTrailU, ih]

theorem dropWhile_fix {l : List Char} (h : headNotU l = true) :
    l.dropWhile (fun c => c == '_') = l := by
  cases l with
  | nil => rfl
  | cons c cs =>
    rw [List.dropWhile_cons]
    simp only [headNotU, Bool.not_eq_true'] at h
    simp [h]

theorem trimU_fix {l : List Char} (h1 : headNotU l = true) (h2 : lastNotU l = true) :
    trimU l = l := by
  rw [trimU, dropWhile_fix h1, trimTrail_fix h2]

theorem noSpace_stripSpaces (l : List Char) : noSpaceB (stripSpaces l) = true := by
  simp only [noSpaceB, List.all_eq_true, stripSpaces]
  intro c hc
  exact (List.mem_filter.mp hc).2

theorem stripSpaces_fix {l : List Char} (h : noSpaceB l = true) : stripSpaces l = l := by
  simp only [noSpaceB, List.all_eq_true] at h
  exact List.filter_eq_self.mpr h

theorem clean_filename_data (s : String) :
    (clean_filename s).data = trimU (collapseU (stripSpaces (removeBlock s.data))) := by
  simp [clean_filename, finalizeName_id]

theorem noSpace_cleanCore (w : List Char) :
    noSpaceB (trimU (collapseU (stripSpaces w))) = true := by
  simp only [noSpaceB, List.all_eq_true]
  intro c hc
  have h1 : c ∈ collapseU (stripSpaces w) :=
    (List.dropWhile_sublist _).mem (mem_trimTrail hc)
  have h2 : c ∈ stripSpaces w := mem_collapseU h1
  exact (List.mem_filter.mp h2).2

theorem noDoubleU_cleanCore (w : List Char) :
    noDoubleU (trimU (collapseU (stripSpaces w))) = true :=
  noDoubleU_trimTrail (noDoubleU_dropWhile (collapseU_noDouble _))

theorem headNotU_cleanCore (w : List Char) :
    headNotU (trimU (collapseU (stripSpaces w))) = true :=
  headNotU_trimTrail (headNotU_dropWhile _)

theorem lastNotU_cleanCore (w : List Char) :
    lastNotU (trimU (collapseU (stripSpaces w))) = true :=
  lastNotU_trimTrail _

/-! ## Claims C3 and C4: the Filename Normalizer -/

/-- Claim C3, as stated, is false: `clean_filename` is not idempotent on every
string.  Removing one blocklist occurrence can splice a new occurrence
together: cleaning `"mermermaidmaid"` yields `"mermaid"`, which a second
cleaning erases entirely. -/
theorem C3_counterexample :
    clean_filename (clean_filename "mermermaidmaid") ≠ clean_filename "mermermaidmaid" := by
  decide

/-- Claim C3 (amended): `clean_filename` is idempotent on every filename whose
cleaned form contains no further blocklist occurrence — i.e. whenever the
blocklist-removal pass leaves the cleaned name unchanged, cleaning again
returns it verbatim.  (The function is total by construction: it always
returns a string.) -/
theorem C3_clean_filename_idempotent (s : String)
    (h : removeBlock (clean_filename s).data = (clean_filename s).data) :
    clean_filename (clean_filename s) = clean_filename s := by
  have hx := clean_filename_data s
  show String.mk
      (finalizeName (trimU (collapseU (stripSpaces (removeBlock (clean_filename s).data))))) =
    clean_filename s
  rw [h, hx, stripSpaces_fix (noSpace_cleanCore _), collapseU_fix _ (noDoubleU_cleanCore _),
    trimU_fix (headNotU_cleanCore _) (lastNotU_cleanCore _), finalizeName_id, ← hx]

/-- Witness for C3 (amended) at the concrete filename `"1_a b.png"`. -/
theorem C3_witness :
    clean_filename (clean_filename "1_a b.png") = clean_filename "1_a b.png" :=
  C3_clean_filename_idempotent "1_a b.png" (by decide)

/-- Claim C4: the claim (and the source's own comment "Ensure only one
underscore") says the output has at most one underscore, but
`name.split('_', 1)` followed by re-joining the two parts with `'_'`
reconstructs the input unchanged, so inner underscores survive:
`clean_filename "1_a_b.png"` returns `"1_a_b.png"`, which contains two. -/
theorem C4_split_rejoin_keeps_underscores :
    clean_filename "1_a_b.png" = "1_a_b.png" ∧
      ((clean_filename "1_a_b.png").data.count '_') = 2 := by
  decide

/-! ## Shape of the manifest written by `update_images_json` -/

theorem getCat_update_niji6 (wp : String → List String) (o : Manifest) (t : Int) :
    getCat (update_images_json wp o t).1 "niji6" =
      some ⟨catName o "niji6", (sortPaths (wp "niji6")).map (mkEntry o t)⟩ := rfl

theorem getCat_update_mj7 (wp : String → List String) (o : Manifest) (t : Int) :
    getCat (update_images_json wp o t).1 "mj7" =
      some ⟨catName o "mj7", (sortPaths (wp "mj7")).map (mkEntry o t)⟩ := rfl

theorem getImages_update_niji6 (wp : String → List String) (o : Manifest) (t : Int) :
    getImages (update_images_json wp o t).1 "niji6" =
      (sortPaths (wp "niji6")).map (mkEntry o t) := by
  rw [getImages, getCat_update_niji6]

theorem getImages_update_mj7 (wp : String → List String) (o : Manifest) (t : Int) :
    getImages (update_images_json wp o t).1 "mj7" =
      (sortPaths (wp "mj7")).map (mkEntry o t) := by
  rw [getImages, getCat_update_mj7]

theorem allEntries_update (wp : String → List String) (o : Manifest) (t : Int) :
    allEntries (update_images_json wp o t).1 =
      (sortPaths (wp "niji6")).map (mkEntry o t) ++ (sortPaths (wp "mj7")).map (mkEntry o t) := by
  simp [allEntries, MODEL_FOLDERS, getImages_update_niji6, getImages_update_mj7]

theorem mkEntry_path (o : Manifest) (t : Int) (p : String) : (mkEntry o t p).path = p := rfl

theorem mem_allEntries_update {wp : String → List String} {o : Manifest} {t : Int}
    {e : ImageEntry} (he : e ∈ allEntries (update_images_json wp o t).1) :
    e = mkEntry o t e.path := by
  rw [allEntries_update] at he
  rcases List.mem_append.mp he with h | h <;>
    · obtain ⟨p, _, rfl⟩ := List.mem_map.mp h
      rw [mkEntry_path]

theorem mkEntry_mem_allEntries {wp : String → List String} (o : Manifest) (t : Int)
    {p : String} (hp : p ∈ sortPaths (wp "niji6") ∨ p ∈ sortPaths (wp "mj7")) :
    mkEntry o t p ∈ allEntries (update_images_json wp o t).1 := by
  rw [allEntries_update]
  rcases hp with h | h
  · exact List.mem_append_left _ (List.mem_map_of_mem _ h)
  · exact List.mem_append_right _ (List.mem_map_of_mem _ h)

theorem oldLookup_update {wp : String → List String} (o : Manifest) (t : Int)
    {p : String} (hp : p ∈ sortPaths (wp "niji6") ∨ p ∈ sortPaths (wp "mj7")) :
    oldLookup (update_images_json wp o t).1 p = some (mkEntry o t p) := by
  rw [oldLookup]
  have hmem : mkEntry o t p ∈
      (allEntries (update_images_json wp o t).1).filter (fun e => e.path == p) :=
    List.mem_filter.mpr ⟨mkEntry_mem_allEntries o t hp, by simp [mkEntry_path]⟩
  have hne : (allEntries (update_images_json wp o t).1).filter (fun e => e.path == p) ≠ [] :=
    List.ne_nil_of_mem hmem
  obtain ⟨e, he⟩ := Option.ne_none_iff_exists'.mp
    (fun hnone => hne (List.getLast?_eq_none_iff.mp hnone))
  rw [he]
  have hef : e ∈ (allEntries (update_images_json wp o t).1).filter (fun e => e.path == p) :=
    List.mem_of_mem_getLast? he
  have hee := List.mem_filter.mp hef
  have hep : e.path = p := by simpa using hee.2
  rw [mem_allEntries_update hee.1, hep]

/-! ## Claim C2: Synchronizer idempotence -/

/-- Claim C2: running the synchroniser a second time on the manifest the
first run wrote, with the same output-path sets, yields an identical
manifest, provided no entry's timestamp crosses the recency-window boundary
between the two runs (same paths, same timestamps, same `"new"` flags, same
category names). -/
theorem C2_synchronizer_idempotent (wp : String → List String) (o : Manifest) (n1 n2 : Int)
    (h : ∀ e ∈ allEntries (update_images_json wp o n1).1,
      (n1 - NEW_WINDOW < e.dateadded ↔ n2 - NEW_WINDOW < e.dateadded)) :
    (update_images_json wp (update_images_json wp o n1).1 n2).1 =
      (update_images_json wp o n1).1 := by
  have hentry : ∀ m : String, (m = "niji6" ∨ m = "mj7") → ∀ p ∈ sortPaths (wp m),
      mkEntry (update_images_json wp o n1).1 n2 p = mkEntry o n1 p := by
    intro m hm p hp
    have hp' : p ∈ sortPaths (wp "niji6") ∨ p ∈ sortPaths (wp "mj7") := by
      rcases hm with h' | h' <;> rw [h'] at hp
      · exact Or.inl hp
      · exact Or.inr hp
    have hlook := oldLookup_update o n1 hp'
    have hdate : dateFor (update_images_json wp o n1).1 n2 p = dateFor o n1 p := by
      rw [dateFor, hlook]
      rfl
    have hmem := @mkEntry_mem_allEntries wp o n1 p hp'
    have hiff := h _ hmem
    have hdd : (mkEntry o n1 p).dateadded = dateFor o n1 p := rfl
    rw [hdd] at hiff
    simp only [mkEntry, hdate]
    congr 1
    exact congrArg some (decide_eq_decide.mpr hiff.symm)
  have hname : ∀ m : String, (m = "niji6" ∨ m = "mj7") →
      catName (update_images_json wp o n1).1 m = catName o m := by
    intro m hm
    rcases hm with h' | h' <;> subst h'
    · rw [catName, getCat_update_niji6]
    · rw [catName, getCat_update_mj7]
  show Manifest.mk _ _ = Manifest.mk _ _
  congr 1
  apply List.map_congr_left
  intro mf hmf
  have hmf' : mf = ("niji6", "niji-6") ∨ mf = ("mj7", "midjourney-7") := by
    rw [ MODEL_FOLDERS ] at hmf
    rcases List.mem_cons.mp hmf with h' | h'
    · exact Or.inl h'
    · exact Or.inr (by simpa using h')
  have hm : mf.1 = "niji6" ∨ mf.1 = "mj7" := by
    rcases hmf' with h' | h' <;> rw [h']
    · exact Or.inl rfl
    · exact Or.inr rfl
  rw [hname mf.1 hm, List.map_congr_left (hentry mf.1 hm)]

/-- Witness for C2: a fresh manifest is built at time 10 from one path, and
rebuilding it at time 20 (inside the window) reproduces it exactly. -/
theorem C2_witness :
    (update_images_json wpOne (update_images_json wpOne manifestEmpty 10).1 20).1 =
      (update_images_json wpOne manifestEmpty 10).1 :=
  C2_synchronizer_idempotent wpOne manifestEmpty 10 20 (by decide)

/-! ## Claim C5: the persisted `"new"` key -/

/-- Claim C5, as stated, is false for `update_images_json`: an entry outside
the recency window still carries a `"new"` key — with value `false` — in the
written manifest (`entry["new"] = False` on the `else` branch).  Here the
stored timestamp 0 lies far outside the window ending at time 10000000. -/
theorem C5_counterexample :
    (getImages (update_images_json wpOne manifestOld 10000000).1 "niji6").map
        (fun e => (e.path, e.dateadded, e.new)) =
      [("img/niji-6/1/1.webp", 0, some false)] ∧
    ¬((10000000 : Int) - NEW_WINDOW < 0) := by
  constructor
  · decide
  · decide

/-- Claim C5 (amended): every entry the synchroniser writes carries the
`"new"` key, and its value is `true` exactly when the entry's timestamp lies
within the recency window (`dateadded > now - NEW_WINDOW`); outside the
window the key is present with value `false`. -/
theorem C5_new_flag (wp : String → List String) (o : Manifest) (now : Int)
    (m : String) (hm : m = "niji6" ∨ m = "mj7") :
    ∀ e ∈ getImages (update_images_json wp o now).1 m,
      e.new = some (decide (now - NEW_WINDOW < e.dateadded)) := by
  intro e he
  have he' : e ∈ allEntries (update_images_json wp o now).1 := by
    rcases hm with h | h <;> rw [h] at he
    · rw [getImages_update_niji6] at he
      rw [allEntries_update]
      exact List.mem_append_left _ he
    · rw [getImages_update_mj7] at he
      rw [allEntries_update]
      exact List.mem_append_right _ he
  rw [mem_allEntries_update he']
  rfl

/-- Witness for C5 (amended): the single fresh entry written at time 5
carries `new = some true`, and `true` is exactly the window test at its
timestamp. -/
theorem C5_witness :
    (ImageEntry.mk "img/niji-6/1/1.webp" 5 (some true)).new =
      some (decide ((5 : Int) - NEW_WINDOW <
        (ImageEntry.mk "img/niji-6/1/1.webp" 5 (some true)).dateadded)) :=
  C5_new_flag wpOne manifestEmpty 5 "niji6" (Or.inl rfl) _ (by decide)

/-! ## Claim C10: removed-entry detection -/

theorem removed_update (wp : String → List String) (o : Manifest) (now : Int) :
    (update_images_json wp o now).2.removed =
      (MODEL_FOLDERS.map (fun mf =>
        (((getImages o mf.1).map (fun e => e.path)).filter
          (fun p => !((wp mf.1).contains p))).dedup)).flatten := rfl

/-- Claim C10: a path is reported as removed exactly when some category's
previous manifest listed it and the current output set for that category no
longer contains it; and the new manifest's entry list for each category
contains exactly the current output paths. -/
theorem C10_removed_and_manifest (wp : String → List String) (o : Manifest) (now : Int) :
    (∀ r : String, r ∈ (update_images_json wp o now).2.removed ↔
      ∃ mf ∈ MODEL_FOLDERS, r ∈ (getImages o mf.1).map (fun e => e.path) ∧ r ∉ wp mf.1) ∧
    (∀ mf ∈ MODEL_FOLDERS, ∀ p : String,
      p ∈ (getImages (update_images_json wp o now).1 mf.1).map (fun e => e.path) ↔
        p ∈ wp mf.1) := by
  constructor
  · intro r
    rw [removed_update, List.mem_flatten]
    constructor
    · rintro ⟨l, hl, hr⟩
      obtain ⟨mf, hmf, rfl⟩ := List.mem_map.mp hl
      have hr' := List.mem_filter.mp (List.mem_dedup.mp hr)
      refine ⟨mf, hmf, hr'.1, ?_⟩
      intro hmem
      have h3 : (wp mf.1).contains r = true := List.elem_iff.mpr hmem
      have h2 := hr'.2
      rw [h3] at h2
      exact absurd h2 (by decide)
    · rintro ⟨mf, hmf, hold, hnot⟩
      refine ⟨_, List.mem_map_of_mem _ hmf, ?_⟩
      refine List.mem_dedup.mpr (List.mem_filter.mpr ⟨hold, ?_⟩)
      cases h4 : (wp mf.1).contains r with
      | false => rfl
      | true => exact absurd (List.elem_iff.mp h4) hnot
  · intro mf hmf p
    have hm : mf.1 = "niji6" ∨ mf.1 = "mj7" := by
      rw [ MODEL_FOLDERS ] at hmf
      rcases List.mem_cons.mp hmf with h' | h'
      · exact Or.inl (by rw [h'])
      · exact Or.inr (by rw [show mf = ("mj7", "midjourney-7") by simpa using h'])
    have himg : getImages (update_images_json wp o now).1 mf.1 =
        (sortPaths (wp mf.1)).map (mkEntry o now) := by
      rcases hm with h | h <;> rw [h]
      · exact getImages_update_niji6 wp o now
      · exact getImages_update_mj7 wp o now
    rw [himg, List.map_map]
    have : ((fun e => e.path) ∘ mkEntry o now) = fun p : String => p := by
      funext q
      rfl
    rw [this, List.map_id']
    exact mem_sortPaths

/-- Witness for C10 at the spec's own example: previous paths {A, B, C},
current outputs {A, C} — B is reported removed, A is in the new manifest. -/
theorem C10_witness :
    "img/niji-6/1/b.webp" ∈ (update_images_json wpAC manifestABC 0).2.removed ∧
    "img/niji-6/1/a.webp" ∈
      (getImages (update_images_json wpAC manifestABC 0).1 "niji6").map (fun e => e.path) :=
  ⟨((C10_removed_and_manifest wpAC manifestABC 0).1 _).mpr
      ⟨("niji6", "niji-6"), by decide, by decide, by decide⟩,
   (((C10_removed_and_manifest wpAC manifestABC 0).2 ("niji6", "niji-6") (by decide)) _).mpr
      (by decide)⟩

/-! ## Claim C1: path uniqueness in the written manifest -/

/-- Claim C1 fails on the code: when a source PNG's WebP output already
exists on disk but is untracked in the previous manifest, the per-PNG loop of
`process_images_concurrently` appends its path once (the "exists but not in
images.json" branch) and `find_orphaned_webp_files` reports the same file, so
`webp_paths[model_id].extend(orphaned_files[model_id])` appends it a second
time — and `update_images_json` then writes two entries with the same path.
(`scripts/fix_duplicates.py` exists in the repository precisely to strip such
duplicates, confirming uniqueness is the intended invariant.) -/
theorem C1_duplicate_path :
    ((getImages (update_images_json (process_images_concurrently srcUntracked)
        manifestEmpty 0).1 "niji6").map (fun e => e.path)) =
      ["img/niji-6/1/1_a.webp", "img/niji-6/1/1_a.webp"] ∧
    ¬((getImages (update_images_json (process_images_concurrently srcUntracked)
        manifestEmpty 0).1 "niji6").map (fun e => e.path)).Nodup := by
  constructor
  · decide
  · decide

/-! ## Claim C8: converter status strings -/

/-- Claim C8: the converter's status string is tied to the outcome of the
three PIL calls.  If open, mode-flattening and save all succeed
(`pilSuccess`), the result is exactly the `"Converted: "` message; if any of
them raises, the result is an `"ERROR converting "` message carrying some
error text.  In particular every outcome yields one of the two status
strings — exceptions never escape, mirroring the `try/except` that wraps the
whole body. -/
theorem C8_convert_status (pn wn : String) (o : PilRes PilImg)
    (c : PilImg → PilRes PilImg) (s : PilImg → PilRes Unit) :
    (pilSuccess o c s →
      convert_png_to_webp pn wn o c s = "Converted: " ++ (pn ++ (" -> " ++ wn))) ∧
    (¬ pilSuccess o c s →
      ∃ e, convert_png_to_webp pn wn o c s =
        "ERROR converting " ++ (pn ++ (": " ++ e))) ∧
    ((∃ t, convert_png_to_webp pn wn o c s = "Converted: " ++ t) ∨
      (∃ t, convert_png_to_webp pn wn o c s = "ERROR converting " ++ t)) := by
  have main : (pilSuccess o c s →
      convert_png_to_webp pn wn o c s = "Converted: " ++ (pn ++ (" -> " ++ wn))) ∧
      (¬ pilSuccess o c s →
        ∃ e, convert_png_to_webp pn wn o c s =
          "ERROR converting " ++ (pn ++ (": " ++ e))) := by
    cases o with
    | exn e =>
      constructor
      · rintro ⟨img, img2, ho, -⟩
        exact PilRes.noConfusion ho
      · intro _
        exact ⟨e, by simp [convert_png_to_webp, String.append_assoc]⟩
    | ok img =>
      cases hc : (if img.mode = "RGBA" ∨ img.mode = "LA" ∨ img.mode = "P"
          then c img else PilRes.ok img) with
      | exn e =>
        constructor
        · rintro ⟨img', img2, ho, hconv, -⟩
          injection ho with himg
          subst himg
          rw [hc] at hconv
          exact PilRes.noConfusion hconv
        · intro _
          refine ⟨e, ?_⟩
          simp only [convert_png_to_webp, hc]
          simp [String.append_assoc]
      | ok img2 =>
        cases hs : s img2 with
        | ok u =>
          constructor
          · intro _
            simp only [convert_png_to_webp, hc, hs]
            simp [String.append_assoc]
          · intro hns
            exact absurd ⟨img, img2, rfl, hc, u, hs⟩ hns
        | exn e =>
          constructor
          · rintro ⟨img', img2', ho, hconv, u, hsave⟩
            injection ho with himg
            subst himg
            rw [hc] at hconv
            injection hconv with h2
            subst h2
            rw [hs] at hsave
            exact PilRes.noConfusion hsave
          · intro _
            refine ⟨e, ?_⟩
            simp only [convert_png_to_webp, hc, hs]
            simp [String.append_assoc]
  refine ⟨main.1, main.2, ?_⟩
  rcases Classical.em (pilSuccess o c s) with h | h
  · exact Or.inl ⟨pn ++ (" -> " ++ wn), main.1 h⟩
  · obtain ⟨e, he⟩ := main.2 h
    exact Or.inr ⟨pn ++ (": " ++ e), he⟩

/-- Closed-form check of C8 at concrete oracles: with all three PIL calls
succeeding the status is the `"Converted: "` message, and with `Image.open`
raising it is the `"ERROR converting "` message. -/
theorem C8_witness :
    convert_png_to_webp "a.png" "a.webp" (PilRes.ok (PilImg.mk "RGB"))
        (fun i => PilRes.ok i) (fun _ => PilRes.ok ()) =
      "Converted: " ++ ("a.png" ++ (" -> " ++ "a.webp")) ∧
    convert_png_to_webp "a.png" "a.webp" (PilRes.exn "corrupt")
        (fun i => PilRes.ok i) (fun _ => PilRes.ok ()) =
      "ERROR converting " ++ ("a.png" ++ (": " ++ "corrupt")) :=
  ⟨(C8_convert_status "a.png" "a.webp" (PilRes.ok (PilImg.mk "RGB"))
      (fun i => PilRes.ok i) (fun _ => PilRes.ok ())).1
      ⟨PilImg.mk "RGB", PilImg.mk "RGB", rfl, by decide, (), rfl⟩,
   by decide⟩

/-! ## Claim C9: the PNG → WebP destination mapping -/

/-- Claim C9, as stated, is false: the subfolder is not keyed by the first
digit OCCURRING in the filename.  For `a1.png` the code tests only the first
character (`webp_name[0]`), which is not a digit, and falls back to `'0'`,
while the first digit occurring in the name is `'1'`. -/
theorem C9_counterexample :
    get_png_to_webp_mapping pngLetterFirst =
      some (WebpDest.mk "niji-6" '0' "a1.webp") ∧
    first_digit_scan (webpName "a1.png") = some '1' ∧ ('0' : Char) ≠ '1' := by
  refine ⟨?_, ?_, ?_⟩ <;> decide

theorem firstCharDigitElseZero_isDigit (s : String) :
    (firstCharDigitElseZero s).isDigit = true := by
  rw [firstCharDigitElseZero]
  cases hd : s.data with
  | nil => decide
  | cons ch t =>
    show (if ch.isDigit = true then ch else '0').isDigit = true
    by_cases hc : ch.isDigit = true
    · rw [if_pos hc]
      exact hc
    · rw [if_neg hc]
      decide

/-- Claim C9 (amended): a successful mapping places the file under the model
folder found by substring search over the path, then in a one-character
subfolder that is always a digit — the filename's FIRST CHARACTER when that
is a digit and `'0'` otherwise (not the first digit occurring anywhere) —
with the filename's `.png` suffix replaced by `.webp`. -/
theorem C9_mapping_shape (p : PngFile) (d : WebpDest)
    (h : get_png_to_webp_mapping p = some d) :
    d.fileName = webpName p.name ∧
    d.subfolder = firstCharDigitElseZero (webpName p.name) ∧
    d.subfolder.isDigit = true ∧
    d.modelFolder ∈ MODEL_FOLDERS.map (fun mf => mf.2) ∧
    isSubstr d.modelFolder.data (pathStr p).data = true := by
  rw [get_png_to_webp_mapping] at h
  cases hf : MODEL_FOLDERS.find? (fun mf => isSubstr mf.2.data (pathStr p).data) with
  | none =>
    rw [hf] at h
    exact absurd h (by simp)
  | some mf =>
    rw [hf] at h
    have hd : d = WebpDest.mk mf.2 (firstCharDigitElseZero (webpName p.name)) (webpName p.name) :=
      (Option.some_inj.mp h).symm
    subst hd
    refine ⟨rfl, rfl, firstCharDigitElseZero_isDigit _, ?_, ?_⟩
    · exact List.mem_map_of_mem _ (List.mem_of_find?_eq_some hf)
    · simpa using List.find?_some hf

/-- Witness for C9 (amended) at the well-formed source file
`source-images/niji-6/1_a.png`. -/
theorem C9_witness :
    (WebpDest.mk "niji-6" '1' "1_a.webp").fileName = webpName "1_a.png" ∧
    (WebpDest.mk "niji-6" '1' "1_a.webp").subfolder =
      firstCharDigitElseZero (webpName "1_a.png") ∧
    (WebpDest.mk "niji-6" '1' "1_a.webp").subfolder.isDigit = true ∧
    (WebpDest.mk "niji-6" '1' "1_a.webp").modelFolder ∈ MODEL_FOLDERS.map (fun mf => mf.2) ∧
    isSubstr (WebpDest.mk "niji-6" '1' "1_a.webp").modelFolder.data
      (pathStr (PngFile.mk "source-images/niji-6" "1_a.png")).data = true :=
  C9_mapping_shape (PngFile.mk "source-images/niji-6" "1_a.png")
    (WebpDest.mk "niji-6" '1' "1_a.webp") (by decide)

/-! ## The deletion/restart invariant through the Resolver interpreter -/

theorem StepInv_refl (a : RState) : StepInv a a :=
  ⟨Nat.le_refl _, by simp [Nat.lt_irrefl]⟩

theorem StepInv_trans {a b c : RState} (h1 : StepInv a b) (h2 : StepInv b c) : StepInv a c := by
  obtain ⟨hd1, hc1⟩ := h1
  obtain ⟨hd2, hc2⟩ := h2
  refine ⟨Nat.le_trans hd1 hd2, ?_⟩
  rw [hc2, hc1, Bool.or_assoc]
  congr 1
  by_cases hab : a.deletions < b.deletions
  · simp [hab, Nat.lt_of_lt_of_le hab hd2]
  · by_cases hbc : b.deletions < c.deletions
    · simp [hab, hbc, Nat.lt_of_le_of_lt hd1 hbc]
    · have hac : ¬a.deletions < c.deletions := by omega
      simp [hab, hbc, hac]

theorem StepInv_of_same {a b : RState} (hd : b.deletions = a.deletions)
    (hc : b.conflictsResolved = a.conflictsResolved) : StepInv a b := by
  refine ⟨Nat.le_of_eq hd.symm, ?_⟩
  rw [hc, hd]
  simp [Nat.lt_irrefl]

theorem StepInv_of_delete {a b : RState} (hd : b.deletions = a.deletions + 1)
    (hc : b.conflictsResolved = true) : StepInv a b := by
  refine ⟨by omega, ?_⟩
  rw [hc, hd]
  have h : decide (a.deletions < a.deletions + 1) = true := by simp
  rw [h, Bool.or_true]

theorem readAns_untouched (st : RState) :
    (readAns st).2.fs = st.fs ∧ (readAns st).2.report = st.report ∧
      (readAns st).2.deletions = st.deletions ∧
      (readAns st).2.conflictsResolved = st.conflictsResolved ∧
      (readAns st).2.prompts = st.prompts ∧
      (readAns st).2.currentConflicts = st.currentConflicts := by
  rw [readAns]
  cases st.answers <;> exact ⟨rfl, rfl, rfl, rfl, rfl, rfl⟩

theorem maybeAskShow_untouched (cfg : ResolverCfg) (folder a b : String) (st : RState) :
    (maybeAskShow cfg folder a b st).fs = st.fs ∧
      (maybeAskShow cfg folder a b st).report = st.report ∧
      (maybeAskShow cfg folder a b st).deletions = st.deletions ∧
      (maybeAskShow cfg folder a b st).conflictsResolved = st.conflictsResolved ∧
      (maybeAskShow cfg folder a b st).prompts = st.prompts ∧
      (maybeAskShow cfg folder a b st).currentConflicts = st.currentConflicts := by
  rw [maybeAskShow]
  split
  · split
    · exact ⟨rfl, rfl, rfl, rfl, rfl, rfl⟩
    · exact readAns_untouched st
  · exact readAns_untouched st

theorem handleConflict_inv (cfg : ResolverCfg) (folder n m : String) (st : RState) :
    StepInv st (handleConflict cfg folder n m st) := by
  simp only [handleConflict]
  split
  · exact StepInv_refl st
  · split
    · exact StepInv_of_same (maybeAskShow_untouched cfg folder n m st).2.2.1
        (maybeAskShow_untouched cfg folder n m st).2.2.2.1
    · split
      · exact StepInv_of_same (maybeAskShow_untouched cfg folder n m st).2.2.1
          (maybeAskShow_untouched cfg folder n m st).2.2.2.1
      · split
        · exact StepInv_of_delete
            (congrArg (fun x => x + 1) (maybeAskShow_untouched cfg folder n m st).2.2.1) rfl
        · exact StepInv_of_delete
            (congrArg (fun x => x + 1) (maybeAskShow_untouched cfg folder n m st).2.2.1) rfl
        · exact StepInv_of_same (maybeAskShow_untouched cfg folder n m st).2.2.1
            (maybeAskShow_untouched cfg folder n m st).2.2.2.1

theorem handleDup_inv (cfg : ResolverCfg) (folder : String) (st : RState)
    (pair : String × String) : StepInv st (handleDup cfg folder st pair) := by
  simp only [handleDup]
  split
  · exact StepInv_refl st
  · split
    · exact StepInv_of_same (maybeAskShow_untouched cfg folder pair.1 pair.2 st).2.2.1
        (maybeAskShow_untouched cfg folder pair.1 pair.2 st).2.2.2.1
    · split
      · exact StepInv_of_same (maybeAskShow_untouched cfg folder pair.1 pair.2 st).2.2.1
          (maybeAskShow_untouched cfg folder pair.1 pair.2 st).2.2.2.1
      · split
        · exact StepInv_of_delete
            (congrArg (fun x => x + 1)
              (maybeAskShow_untouched cfg folder pair.1 pair.2 st).2.2.1) rfl
        · exact StepInv_of_delete
            (congrArg (fun x => x + 1)
              (maybeAskShow_untouched cfg folder pair.1 pair.2 st).2.2.1) rfl
        · exact StepInv_of_same (maybeAskShow_untouched cfg folder pair.1 pair.2 st).2.2.1
            (maybeAskShow_untouched cfg folder pair.1 pair.2 st).2.2.2.1

theorem addPrefixStep_st (fsc : FolderScan) (m : String) :
    (addPrefixStep fsc m).st = fsc.st := by
  simp only [addPrefixStep]
  split <;> rfl

theorem processPng_inv (cfg : ResolverCfg) (folder : String) (fsc : FolderScan) (n : String) :
    StepInv fsc.st (processPng cfg folder fsc n).st := by
  simp only [processPng]
  split
  · exact StepInv_refl _
  · split
    · rw [addPrefixStep_st]
      exact StepInv_refl _
    · split
      · split
        · exact handleConflict_inv cfg folder n (clean_filename n) fsc.st
        · rw [addPrefixStep_st]
          exact handleConflict_inv cfg folder n (clean_filename n) fsc.st
      · rw [addPrefixStep_st]
        exact StepInv_of_same rfl rfl

theorem pngFold_inv (cfg : ResolverCfg) (folder : String) :
    ∀ (pngs : List String) (fsc : FolderScan),
      StepInv fsc.st ((pngs.foldl (processPng cfg folder) fsc).st)
  | [], _ => StepInv_refl _
  | n :: rest, fsc => by
    rw [List.foldl_cons]
    exact StepInv_trans (processPng_inv cfg folder fsc n) (pngFold_inv cfg folder rest _)

theorem dupFold_inv (cfg : ResolverCfg) (folder : String) :
    ∀ (pairs : List (String × String)) (st : RState),
      StepInv st (pairs.foldl (handleDup cfg folder) st)
  | [], _ => StepInv_refl _
  | pr :: rest, st => by
    rw [List.foldl_cons]
    exact StepInv_trans (handleDup_inv cfg folder st pr) (dupFold_inv cfg folder rest _)

theorem processFolder_inv (cfg : ResolverCfg) (st : RState) (folder : String) :
    StepInv st (processFolder cfg st folder) := by
  simp only [processFolder]
  split
  · exact StepInv_refl _
  · split
    · exact StepInv_refl _
    · exact StepInv_trans
        (pngFold_inv cfg folder _ { st := st, seen := [], dups := [] })
        (dupFold_inv cfg folder _ _)

theorem scanPass_inv (cfg : ResolverCfg) (st : RState) : StepInv st (scanPass cfg st) := by
  simp only [scanPass, MODEL_FOLDERS, List.map_cons, List.map_nil, List.foldl_cons,
    List.foldl_nil]
  refine StepInv_trans (StepInv_of_same
    (show RState.deletions { st with currentConflicts := false } = st.deletions from rfl)
    (show RState.conflictsResolved { st with currentConflicts := false } =
      st.conflictsResolved from rfl)) ?_
  exact StepInv_trans
    (processFolder_inv cfg { st with currentConflicts := false } "niji-6")
    (processFolder_inv cfg _ "midjourney-7")

theorem runPasses_inv (cfg : ResolverCfg) :
    ∀ (fuel : Nat) (st : RState), StepInv st (runPasses cfg fuel st).1
  | 0, st => StepInv_refl st
  | fuel + 1, st => by
    simp only [runPasses]
    split
    · exact scanPass_inv cfg st
    · split
      · exact StepInv_trans (scanPass_inv cfg st) (runPasses_inv cfg fuel _)
      · exact scanPass_inv cfg st

/-! ## Claim C7: restart discipline -/

/-- Claim C7, as stated, is false: a run whose only change is a silent rename
(the no-conflict branch, process.py line 169) alters a file on disk, finishes
normally, and does not restart — `conflicts_resolved` is never set by plain
renames. -/
theorem C7_counterexample :
    (rename_and_check_duplicates cfgNone 2 fsRenameOnly []).finished = true ∧
    (rename_and_check_duplicates cfgNone 2 fsRenameOnly []).st.report =
      ["Renamed: 1_a .png -> 1_a.png"] ∧
    (rename_and_check_duplicates cfgNone 2 fsRenameOnly []).st.fs =
      [("niji-6", ["1_a.png"]), ("midjourney-7", [])] ∧
    fsRenameOnly ≠ [("niji-6", ["1_a.png"]), ("midjourney-7", [])] ∧
    (rename_and_check_duplicates cfgNone 2 fsRenameOnly []).restarted = false := by
  refine ⟨?_, ?_, ?_, ?_, ?_⟩ <;> decide

/-- Claim C7 (amended): the orchestrator restarts exactly when the Resolver's
loop finished normally and at least one file was deleted while resolving a
conflict or duplicate (the only sites that set `conflicts_resolved`); silent
renames and skips never trigger a restart. -/
theorem C7_restart_iff_deletion (cfg : ResolverCfg) (fuel : Nat) (fs : FS)
    (answers : List String) :
    (rename_and_check_duplicates cfg fuel fs answers).restarted =
      ((rename_and_check_duplicates cfg fuel fs answers).finished &&
        decide (0 < (rename_and_check_duplicates cfg fuel fs answers).st.deletions)) := by
  have h := runPasses_inv cfg fuel
    { fs := fs, answers := answers, prompts := [], report := [], deletions := 0,
      conflictsResolved := false, currentConflicts := false, aborted := false }
  obtain ⟨-, hc⟩ := h
  simp only [rename_and_check_duplicates]
  rw [hc]
  simp

/-! ## Skip-only passes leave the filesystem alone and repeat their prompts -/

theorem SkipGood_refl (a : RState) (h0 : a.aborted = false) (hall : AllS a = true) :
    SkipGood a a [] := by
  refine ⟨rfl, rfl, rfl, rfl, by simp, by simp, h0, hall⟩

theorem SkipGood_trans {a b c : RState} {e1 e2 : List PromptEv}
    (h1 : SkipGood a b e1) (h2 : SkipGood b c e2) : SkipGood a c (e1 ++ e2) := by
  obtain ⟨f1, r1, d1, c1, p1, q1, a1, l1⟩ := h1
  obtain ⟨f2, r2, d2, c2, p2, q2, a2, l2⟩ := h2
  refine ⟨f2.trans f1, r2.trans r1, d2.trans d1, c2.trans c1, ?_, ?_, a2, l2⟩
  · rw [p2, p1, List.append_assoc]
  · rw [q2, q1, Bool.or_assoc]
    congr 1
    cases e1 <;> simp

theorem AllS_head_tail {st : RState} {x : String} {rest : List String}
    (hall : AllS st = true) (hans : st.answers = x :: rest) :
    x = "s" ∧ rest.all (fun a => a == "s") = true := by
  rw [AllS, hans] at hall
  simp only [List.all_cons, Bool.and_eq_true, beq_iff_eq] at hall
  exact hall

theorem readAns_skip (st : RState) (h0 : st.aborted = false) (hall : AllS st = true) :
    (readAns st).2.aborted = true ∨ SkipGood st (readAns st).2 [] := by
  rw [readAns]
  cases hans : st.answers with
  | nil => exact Or.inl rfl
  | cons x rest =>
    right
    refine ⟨rfl, rfl, rfl, rfl, by simp, by simp, h0, ?_⟩
    rw [AllS]
    exact (AllS_head_tail hall hans).2

theorem maybeAskShow_skip (cfg : ResolverCfg) (folder a b : String) (st : RState)
    (h0 : st.aborted = false) (hall : AllS st = true) :
    (maybeAskShow cfg folder a b st).aborted = true ∨
      SkipGood st (maybeAskShow cfg folder a b st) [] := by
  rw [maybeAskShow]
  split
  · split
    · exact Or.inr (SkipGood_refl st h0 hall)
    · exact readAns_skip st h0 hall
  · exact readAns_skip st h0 hall

theorem promptLoop_s (rest : List String) :
    promptLoop ("s" :: rest) = some (Choice.skip, rest) := rfl

theorem handleConflict_skip (cfg : ResolverCfg) (folder n m : String) (st : RState)
    (h0 : st.aborted = false) (hall : AllS st = true) :
    (handleConflict cfg folder n m st).aborted = true ∨
      SkipGood st (handleConflict cfg folder n m st) [PromptEv.conflict n m] := by
  simp only [handleConflict]
  split
  next habort => rw [h0] at habort; exact Bool.noConfusion habort
  next =>
    rcases maybeAskShow_skip cfg folder n m st h0 hall with hab | hgood
    · split
      · exact Or.inl hab
      next hnab => exact absurd hab hnab
    · obtain ⟨hfs, hrep, hdel, hcr, hpr, hcc, hab', hall'⟩ := hgood
      split
      next habort => rw [hab'] at habort; exact Bool.noConfusion habort
      next =>
        cases hans : (maybeAskShow cfg folder n m st).answers with
        | nil => exact Or.inl rfl
        | cons x rest =>
          obtain ⟨hx, hrest⟩ := AllS_head_tail hall' hans
          subst hx
          right
          refine ⟨hfs, hrep, hdel, hcr, ?_, ?_, hab', ?_⟩
          · show (maybeAskShow cfg folder n m st).prompts ++ [PromptEv.conflict n m] =
              st.prompts ++ [PromptEv.conflict n m]
            rw [hpr]
            simp
          · show true = (st.currentConflicts || !([PromptEv.conflict n m].isEmpty))
            simp
          · show rest.all (fun a => a == "s") = true
            exact hrest

theorem handleDup_skip (cfg : ResolverCfg) (folder : String) (st : RState)
    (pair : String × String) (h0 : st.aborted = false) (hall : AllS st = true) :
    (handleDup cfg folder st pair).aborted = true ∨
      SkipGood st (handleDup cfg folder st pair) [PromptEv.dup pair.1 pair.2] := by
  simp only [handleDup]
  split
  next habort => rw [h0] at habort; exact Bool.noConfusion habort
  next =>
    rcases maybeAskShow_skip cfg folder pair.1 pair.2 st h0 hall with hab | hgood
    · split
      · exact Or.inl hab
      next hnab => exact absurd hab hnab
    · obtain ⟨hfs, hrep, hdel, hcr, hpr, hcc, hab', hall'⟩ := hgood
      split
      next habort => rw [hab'] at habort; exact Bool.noConfusion habort
      next =>
        cases hans : (maybeAskShow cfg folder pair.1 pair.2 st).answers with
        | nil => exact Or.inl rfl
        | cons x rest =>
          obtain ⟨hx, hrest⟩ := AllS_head_tail hall' hans
          subst hx
          right
          refine ⟨hfs, hrep, hdel, hcr, ?_, ?_, hab', ?_⟩
          · show (maybeAskShow cfg folder pair.1 pair.2 st).prompts ++
                [PromptEv.dup pair.1 pair.2] =
              st.prompts ++ [PromptEv.dup pair.1 pair.2]
            rw [hpr]
            simp
          · show true = (st.currentConflicts || !([PromptEv.dup pair.1 pair.2].isEmpty))
            simp
          · show rest.all (fun a => a == "s") = true
            exact hrest

theorem processPng_skip (cfg : ResolverCfg) (folder : String) (files0 : List String)
    (fsc : FolderScan) (n : String)
    (h0 : fsc.st.aborted = false) (hall : AllS fsc.st = true)
    (hfs : fsFiles fsc.st.fs folder = some files0)
    (hcs : clean_filename n ≠ n → files0.contains (clean_filename n) = true) :
    (processPng cfg folder fsc n).st.aborted = true ∨
      (SkipGood fsc.st (processPng cfg folder fsc n).st
          (pureStep files0 (PureScan.mk [] fsc.seen fsc.dups) n).evs ∧
        (processPng cfg folder fsc n).seen =
          (pureStep files0 (PureScan.mk [] fsc.seen fsc.dups) n).seen ∧
        (processPng cfg folder fsc n).dups =
          (pureStep files0 (PureScan.mk [] fsc.seen fsc.dups) n).dups) := by
  simp only [processPng, pureStep]
  rw [if_neg (by rw [h0]; exact Bool.false_ne_true)]
  rw [hfs]
  by_cases hnm : n = clean_filename n
  · rw [if_pos hnm, if_pos hnm]
    dsimp only
    right
    refine ⟨?_, ?_, ?_⟩
    · rw [addPrefixStep_st]
      cases hsl : seenLookup fsc.seen ((clean_filename n).take 10) <;>
        exact SkipGood_refl _ h0 hall
    · simp only [addPrefixStep]
      cases hsl : seenLookup fsc.seen ((clean_filename n).take 10) <;> rfl
    · simp only [addPrefixStep]
      cases hsl : seenLookup fsc.seen ((clean_filename n).take 10) <;> rfl
  · have hct' : files0.contains (clean_filename n) = true := hcs (fun he => hnm he.symm)
    rw [if_neg hnm, if_neg hnm,
      if_pos (show ((some files0).getD []).contains (clean_filename n) = true from hct'),
      if_pos hct']
    rcases handleConflict_skip cfg folder n (clean_filename n) fsc.st h0 hall with hab | hgood
    · rw [if_pos hab]
      exact Or.inl hab
    · obtain ⟨hfs2, hrep, hdel, hcr, hpr, hcc, hab', hall'⟩ := hgood
      rw [if_neg (by rw [hab']; exact Bool.false_ne_true)]
      dsimp only
      right
      refine ⟨?_, ?_, ?_⟩
      · rw [addPrefixStep_st]
        cases hsl : seenLookup fsc.seen ((clean_filename n).take 10) <;>
          exact ⟨hfs2, hrep, hdel, hcr, hpr, hcc, hab', hall'⟩
      · simp only [addPrefixStep]
        cases hsl : seenLookup fsc.seen ((clean_filename n).take 10) <;> rfl
      · simp only [addPrefixStep]
        cases hsl : seenLookup fsc.seen ((clean_filename n).take 10) <;> rfl

theorem processPng_aborted (cfg : ResolverCfg) (folder : String) (fsc : FolderScan)
    (n : String) (h : fsc.st.aborted = true) : processPng cfg folder fsc n = fsc := by
  simp only [processPng]
  rw [if_pos h]

theorem pngFold_aborted (cfg : ResolverCfg) (folder : String) :
    ∀ (pngs : List String) (fsc : FolderScan), fsc.st.aborted = true →
      pngs.foldl (processPng cfg folder) fsc = fsc
  | [], _, _ => rfl
  | n :: rest, fsc, h => by
    rw [List.foldl_cons, processPng_aborted cfg folder fsc n h]
    exact pngFold_aborted cfg folder rest fsc h

theorem handleDup_aborted (cfg : ResolverCfg) (folder : String) (st : RState)
    (pair : String × String) (h : st.aborted = true) : handleDup cfg folder st pair = st := by
  simp only [handleDup]
  rw [if_pos h]

theorem dupFold_aborted (cfg : ResolverCfg) (folder : String) :
    ∀ (pairs : List (String × String)) (st : RState), st.aborted = true →
      pairs.foldl (handleDup cfg folder) st = st
  | [], _, _ => rfl
  | pr :: rest, st, h => by
    rw [List.foldl_cons, handleDup_aborted cfg folder st pr h]
    exact dupFold_aborted cfg folder rest st h

theorem pureStep_shift (files0 : List String) (e : List PromptEv)
    (s d : List (String × String)) (n : String) :
    pureStep files0 (PureScan.mk e s d) n =
      PureScan.mk (e ++ (pureStep files0 (PureScan.mk [] s d) n).evs)
        (pureStep files0 (PureScan.mk [] s d) n).seen
        (pureStep files0 (PureScan.mk [] s d) n).dups := by
  simp only [pureStep]
  by_cases h1 : n = clean_filename n
  · rw [if_pos h1, if_pos h1]
    dsimp only
    cases hsl : seenLookup s ((clean_filename n).take 10) <;> simp
  · rw [if_neg h1, if_neg h1]
    by_cases h2 : files0.contains (clean_filename n) = true
    · rw [if_pos h2, if_pos h2]
      dsimp only
      cases hsl : seenLookup s ((clean_filename n).take 10) <;> simp
    · rw [if_neg h2, if_neg h2]
      dsimp only
      cases hsl : seenLookup s ((clean_filename n).take 10) <;> simp

theorem pureFold_shift (files0 : List String) :
    ∀ (pngs : List String) (e : List PromptEv) (s d : List (String × String)),
      pngs.foldl (pureStep files0) (PureScan.mk e s d) =
        PureScan.mk (e ++ (pngs.foldl (pureStep files0) (PureScan.mk [] s d)).evs)
          (pngs.foldl (pureStep files0) (PureScan.mk [] s d)).seen
          (pngs.foldl (pureStep files0) (PureScan.mk [] s d)).dups
  | [], e, s, d => by simp
  | n :: rest, e, s, d => by
    rw [List.foldl_cons, List.foldl_cons]
    rw [pureStep_shift files0 e s d n, pureStep_shift files0 [] s d n]
    rw [List.nil_append]
    rw [pureFold_shift files0 rest (e ++ (pureStep files0 (PureScan.mk [] s d) n).evs)
      (pureStep files0 (PureScan.mk [] s d) n).seen
      (pureStep files0 (PureScan.mk [] s d) n).dups]
    rw [pureFold_shift files0 rest (pureStep files0 (PureScan.mk [] s d) n).evs
      (pureStep files0 (PureScan.mk [] s d) n).seen
      (pureStep files0 (PureScan.mk [] s d) n).dups]
    simp [List.append_assoc]

theorem pngFold_skip (cfg : ResolverCfg) (folder : String) (files0 : List String) :
    ∀ (pngs : List String) (fsc : FolderScan),
      fsc.st.aborted = false → AllS fsc.st = true →
      fsFiles fsc.st.fs folder = some files0 →
      (∀ n ∈ pngs, clean_filename n ≠ n → files0.contains (clean_filename n) = true) →
      (pngs.foldl (processPng cfg folder) fsc).st.aborted = true ∨
        (SkipGood fsc.st ((pngs.foldl (processPng cfg folder) fsc).st)
            ((pngs.foldl (pureStep files0) (PureScan.mk [] fsc.seen fsc.dups)).evs) ∧
          (pngs.foldl (processPng cfg folder) fsc).seen =
            (pngs.foldl (pureStep files0) (PureScan.mk [] fsc.seen fsc.dups)).seen ∧
          (pngs.foldl (processPng cfg folder) fsc).dups =
            (pngs.foldl (pureStep files0) (PureScan.mk [] fsc.seen fsc.dups)).dups)
  | [], fsc, h0, hall, _, _ => Or.inr ⟨SkipGood_refl _ h0 hall, rfl, rfl⟩
  | n :: rest, fsc, h0, hall, hfs, hcs => by
    rw [List.foldl_cons, List.foldl_cons]
    rcases processPng_skip cfg folder files0 fsc n h0 hall hfs
        (hcs n (List.mem_cons_self n rest)) with hab | ⟨hsg, hseen, hdups⟩
    · left
      rw [pngFold_aborted cfg folder rest _ hab]
      exact hab
    · obtain ⟨hfs', hrep, hdel, hcr, hpr, hcc, hab', hall'⟩ := hsg
      rcases pngFold_skip cfg folder files0 rest (processPng cfg folder fsc n) hab' hall'
          (by rw [hfs']; exact hfs)
          (fun n' hn' => hcs n' (List.mem_cons_of_mem n hn'))
        with hab2 | ⟨hsg2, hseen2, hdups2⟩
      · exact Or.inl hab2
      · right
        have hstep : pureStep files0 (PureScan.mk [] fsc.seen fsc.dups) n =
            PureScan.mk (pureStep files0 (PureScan.mk [] fsc.seen fsc.dups) n).evs
              (pureStep files0 (PureScan.mk [] fsc.seen fsc.dups) n).seen
              (pureStep files0 (PureScan.mk [] fsc.seen fsc.dups) n).dups := rfl

        rw [hstep, pureFold_shift files0 rest _ _ _]
        rw [← hseen, ← hdups]
        refine ⟨?_, hseen2, hdups2⟩
        have hcomp := SkipGood_trans ⟨hfs', hrep, hdel, hcr, hpr, hcc, hab', hall'⟩ hsg2
        exact hcomp

theorem dupFold_skip (cfg : ResolverCfg) (folder : String) :
    ∀ (pairs : List (String × String)) (st : RState),
      st.aborted = false → AllS st = true →
      (pairs.foldl (handleDup cfg folder) st).aborted = true ∨
        SkipGood st (pairs.foldl (handleDup cfg folder) st)
          (pairs.map (fun pr => PromptEv.dup pr.1 pr.2))
  | [], st, h0, hall => Or.inr (SkipGood_refl st h0 hall)
  | pr :: rest, st, h0, hall => by
    rw [List.foldl_cons, List.map_cons]
    rcases handleDup_skip cfg folder st pr h0 hall with hab | hgood
    · left
      rw [dupFold_aborted cfg folder rest _ hab]
      exact hab
    · rcases dupFold_skip cfg folder rest (handleDup cfg folder st pr)
          hgood.2.2.2.2.2.2.1 hgood.2.2.2.2.2.2.2 with hab2 | hgood2
      · exact Or.inl hab2
      · exact Or.inr (SkipGood_trans hgood hgood2)

theorem processFolder_aborted (cfg : ResolverCfg) (st : RState) (folder : String)
    (h : st.aborted = true) : processFolder cfg st folder = st := by
  simp only [processFolder]
  rw [if_pos h]

theorem fsFiles_pair_mem {fs : FS} {folder : String} {files0 : List String}
    (h : fsFiles fs folder = some files0) : ∃ pr ∈ fs, pr.2 = files0 := by
  rw [fsFiles] at h
  cases hf : fs.find? (fun p => p.1 == folder) with
  | none => rw [hf] at h; exact absurd h (by simp)
  | some pr =>
    rw [hf] at h
    exact ⟨pr, List.mem_of_find?_eq_some hf, by simpa using h⟩

theorem cleanStable_folder {fs : FS} {folder : String} {files0 : List String}
    (hstable : cleanStableB fs = true) (h : fsFiles fs folder = some files0) :
    ∀ n ∈ files0.filter (fun n => ".png".data.isSuffixOf n.data),
      clean_filename n ≠ n → files0.contains (clean_filename n) = true := by
  intro n hn hne
  obtain ⟨pr, hpr, hpr2⟩ := fsFiles_pair_mem h
  have hmem := List.mem_filter.mp hn
  rw [cleanStableB, List.all_eq_true] at hstable
  have hone := hstable pr hpr
  rw [List.all_eq_true] at hone
  have := hone n (by rw [hpr2]; exact hmem.1)
  rw [hmem.2] at this
  simp only [Bool.not_true, Bool.false_or, Bool.or_eq_true, beq_iff_eq] at this
  rcases this with heq | hct
  · exact absurd heq hne
  · rw [← hpr2]
    exact hct

theorem processFolder_skip (cfg : ResolverCfg) (st : RState) (folder : String)
    (h0 : st.aborted = false) (hall : AllS st = true)
    (hstable : cleanStableB st.fs = true) :
    (processFolder cfg st folder).aborted = true ∨
      SkipGood st (processFolder cfg st folder) (folderPrompts st.fs folder) := by
  simp only [processFolder, folderPrompts]
  rw [if_neg (by rw [h0]; exact Bool.false_ne_true)]
  cases hfs : fsFiles st.fs folder with
  | none => exact Or.inr (SkipGood_refl st h0 hall)
  | some files0 =>
    rcases pngFold_skip cfg folder files0
        (files0.filter (fun n => ".png".data.isSuffixOf n.data))
        (FolderScan.mk st [] []) h0 hall hfs (cleanStable_folder hstable hfs)
      with hab | ⟨hsg, hseen, hdups⟩
    · left
      show (List.foldl (handleDup cfg folder)
          ((files0.filter (fun n => ".png".data.isSuffixOf n.data)).foldl
            (processPng cfg folder) (FolderScan.mk st [] [])).st
          ((files0.filter (fun n => ".png".data.isSuffixOf n.data)).foldl
            (processPng cfg folder) (FolderScan.mk st [] [])).dups).aborted = true
      rw [dupFold_aborted cfg folder _ _ hab]
      exact hab
    · obtain ⟨hfs', hrep, hdel, hcr, hpr, hcc, hab', hall'⟩ := hsg
      rcases dupFold_skip cfg folder
          ((files0.filter (fun n => ".png".data.isSuffixOf n.data)).foldl
            (processPng cfg folder) (FolderScan.mk st [] [])).dups
          ((files0.filter (fun n => ".png".data.isSuffixOf n.data)).foldl
            (processPng cfg folder) (FolderScan.mk st [] [])).st hab' hall'
        with hab2 | hgood2
      · left
        show (List.foldl (handleDup cfg folder)
            ((files0.filter (fun n => ".png".data.isSuffixOf n.data)).foldl
              (processPng cfg folder) (FolderScan.mk st [] [])).st
            ((files0.filter (fun n => ".png".data.isSuffixOf n.data)).foldl
              (processPng cfg folder) (FolderScan.mk st [] [])).dups).aborted = true
        exact hab2
      · right
        show SkipGood st
          (List.foldl (handleDup cfg folder)
            ((files0.filter (fun n => ".png".data.isSuffixOf n.data)).foldl
              (processPng cfg folder) (FolderScan.mk st [] [])).st
            ((files0.filter (fun n => ".png".data.isSuffixOf n.data)).foldl
              (processPng cfg folder) (FolderScan.mk st [] [])).dups)
          ((pureFolderScan files0).evs ++
            (pureFolderScan files0).dups.map (fun pr => PromptEv.dup pr.1 pr.2))
        rw [hdups]
        have htotal := SkipGood_trans ⟨hfs', hrep, hdel, hcr, hpr, hcc, hab', hall'⟩ hgood2
        rw [hdups] at htotal
        exact htotal

theorem scanPass_skip (cfg : ResolverCfg) (st : RState)
    (h0 : st.aborted = false) (hall : AllS st = true)
    (hstable : cleanStableB st.fs = true) :
    (scanPass cfg st).aborted = true ∨
      SkipGood { st with currentConflicts := false } (scanPass cfg st)
        (foldersPrompts st.fs) := by
  simp only [scanPass, MODEL_FOLDERS, List.map_cons, List.map_nil, List.foldl_cons,
    List.foldl_nil, foldersPrompts]
  rcases processFolder_skip cfg { st with currentConflicts := false } "niji-6" h0 hall hstable
    with hab | hgood1
  · left
    rw [processFolder_aborted cfg _ "midjourney-7" hab]
    exact hab
  · obtain ⟨hfs1, hrep1, hdel1, hcr1, hpr1, hcc1, hab1, hall1⟩ := hgood1
    rcases processFolder_skip cfg
        (processFolder cfg { st with currentConflicts := false } "niji-6") "midjourney-7"
        hab1 hall1 (by rw [hfs1]; exact hstable)
      with hab2 | hgood2
    · exact Or.inl hab2
    · right
      have htotal := SkipGood_trans
        ⟨hfs1, hrep1, hdel1, hcr1, hpr1, hcc1, hab1, hall1⟩ hgood2
      rw [hfs1] at htotal
      simpa using htotal

theorem runPasses_two (cfg : ResolverCfg) (st : RState) :
    runPasses cfg 2 st =
      (if (scanPass cfg st).aborted = true then (scanPass cfg st, false)
       else if (scanPass cfg st).currentConflicts = true then
         (if (scanPass cfg (scanPass cfg st)).aborted = true then
            (scanPass cfg (scanPass cfg st), false)
          else if (scanPass cfg (scanPass cfg st)).currentConflicts = true then
            (scanPass cfg (scanPass cfg st), false)
          else (scanPass cfg (scanPass cfg st), true))
       else (scanPass cfg st, true)) := rfl

/-! ## Claim C6: skip semantics -/

/-- Claim C6, as stated, is false: answering `s` marks the pass as conflicted
(`current_conflicts = True`, process.py lines 162–165), so the `while True`
loop re-scans and the SAME contending pair is prompted again within the same
invocation even though no file changed.  Concretely: two files that clean to
the same name, a console that always answers `s`, two interpreted passes —
the conflict prompt for the pair appears twice and the filesystem is
untouched throughout. -/
theorem C6_counterexample :
    ((rename_and_check_duplicates cfgNone 2 fsSkips ansSkips).st.prompts.count
        (PromptEv.conflict "1_a .png" "1_a.png")) = 2 ∧
    (rename_and_check_duplicates cfgNone 2 fsSkips ansSkips).st.fs = fsSkips := by
  constructor
  · decide
  · decide

/-- Claim C6 (amended): answering `s` does leave both contending files in
place — a pass consuming only `s` answers with no silent rename applicable
never touches the filesystem, deletes nothing and never restarts — but the
skip marks the pass as conflicted, so the Resolver re-scans and, the
filesystem being unchanged, the next pass issues exactly the same prompts:
after two passes the prompt log is the per-pass prompt list twice.  (Within
one encounter, invalid console input is re-asked without a new prompt
event.) -/
theorem C6_skip_reprompts (cfg : ResolverCfg) (fs : FS) (answers : List String)
    (hall : answers.all (fun a => a == "s") = true)
    (hstable : cleanStableB fs = true)
    (hne : foldersPrompts fs ≠ [])
    (hnoabort : (rename_and_check_duplicates cfg 2 fs answers).st.aborted = false) :
    (rename_and_check_duplicates cfg 2 fs answers).st.fs = fs ∧
    (rename_and_check_duplicates cfg 2 fs answers).st.deletions = 0 ∧
    (rename_and_check_duplicates cfg 2 fs answers).restarted = false ∧
    (rename_and_check_duplicates cfg 2 fs answers).st.prompts =
      foldersPrompts fs ++ foldersPrompts fs := by
  have hPfalse : (foldersPrompts fs).isEmpty = false := by
    cases hP : foldersPrompts fs with
    | nil => exact absurd hP hne
    | cons x t => rfl
  rcases scanPass_skip cfg (RState.mk fs answers [] [] 0 false false false)
      rfl hall hstable with hab1 | hgood1
  · exfalso
    have habs : (rename_and_check_duplicates cfg 2 fs answers).st.aborted = true := by
      show (runPasses cfg 2 (RState.mk fs answers [] [] 0 false false false)).1.aborted = true
      rw [runPasses_two, if_pos hab1]
      exact hab1
    rw [habs] at hnoabort
    exact Bool.noConfusion hnoabort
  · obtain ⟨hfs1, hrep1, hdel1, hcr1, hpr1, hcc1, hab1', hall1⟩ := hgood1
    have hcc1' : (scanPass cfg (RState.mk fs answers [] [] 0 false false false)).currentConflicts
        = true := by
      rw [hcc1]
      show (false || !(foldersPrompts fs).isEmpty) = true
      rw [hPfalse]
      rfl
    rcases scanPass_skip cfg (scanPass cfg (RState.mk fs answers [] [] 0 false false false))
        hab1' hall1 (by rw [hfs1]; exact hstable) with hab2 | hgood2
    · exfalso
      have habs : (rename_and_check_duplicates cfg 2 fs answers).st.aborted = true := by
        show (runPasses cfg 2 (RState.mk fs answers [] [] 0 false false false)).1.aborted = true
        rw [runPasses_two, if_neg (by rw [hab1']; exact Bool.false_ne_true),
          if_pos hcc1', if_pos hab2]
        exact hab2
      rw [habs] at hnoabort
      exact Bool.noConfusion hnoabort
    · obtain ⟨hfs2, hrep2, hdel2, hcr2, hpr2, hcc2, hab2', hall2⟩ := hgood2
      have hPf1 : (foldersPrompts
          (scanPass cfg (RState.mk fs answers [] [] 0 false false false)).fs).isEmpty
          = false := by
        rw [hfs1]
        exact hPfalse
      have hcc2' : (scanPass cfg (scanPass cfg
          (RState.mk fs answers [] [] 0 false false false))).currentConflicts = true := by
        rw [hcc2]
        show (false || !(foldersPrompts
          (scanPass cfg (RState.mk fs answers [] [] 0 false false false)).fs).isEmpty) = true
        rw [hPf1]
        rfl
      have hr : runPasses cfg 2 (RState.mk fs answers [] [] 0 false false false) =
          (scanPass cfg (scanPass cfg (RState.mk fs answers [] [] 0 false false false)),
            false) := by
        rw [runPasses_two, if_neg (by rw [hab1']; exact Bool.false_ne_true),
          if_pos hcc1', if_neg (by rw [hab2']; exact Bool.false_ne_true), if_pos hcc2']
      refine ⟨?_, ?_, ?_, ?_⟩
      · show (runPasses cfg 2 (RState.mk fs answers [] [] 0 false false false)).1.fs = fs
        rw [hr]
        exact hfs2.trans hfs1
      · show (runPasses cfg 2
            (RState.mk fs answers [] [] 0 false false false)).1.deletions = 0
        rw [hr]
        exact hdel2.trans hdel1
      · show ((runPasses cfg 2 (RState.mk fs answers [] [] 0 false false false)).2 &&
            (runPasses cfg 2
              (RState.mk fs answers [] [] 0 false false false)).1.conflictsResolved) = false
        rw [hr]
        rfl
      · show (runPasses cfg 2 (RState.mk fs answers [] [] 0 false false false)).1.prompts =
          foldersPrompts fs ++ foldersPrompts fs
        rw [hr, hpr2]
        have hA : RState.prompts { scanPass cfg
            (RState.mk fs answers [] [] 0 false false false) with
              currentConflicts := false } = foldersPrompts fs := hpr1
        have hB : foldersPrompts
            (RState.fs (scanPass cfg (RState.mk fs answers [] [] 0 false false false))) =
            foldersPrompts fs := by
          rw [hfs1]
        rw [hA, hB]

/-- Witness for C6 (amended) at the concrete all-skip scenario: the files
stay, nothing is deleted, no restart, and the conflict/duplicate prompts of
the first pass are issued again in the second. -/
theorem C6_witness :
    (rename_and_check_duplicates cfgNone 2 fsSkips ansSkips).st.fs = fsSkips ∧
    (rename_and_check_duplicates cfgNone 2 fsSkips ansSkips).st.deletions = 0 ∧
    (rename_and_check_duplicates cfgNone 2 fsSkips ansSkips).restarted = false ∧
    (rename_and_check_duplicates cfgNone 2 fsSkips ansSkips).st.prompts =
      foldersPrompts fsSkips ++ foldersPrompts fsSkips :=
  C6_skip_reprompts cfgNone fsSkips ansSkips (by decide) (by decide) (by decide) (by decide)

end PrompterAid
